import Mathlib

/-!
# ssrfleak: a shallow embedding of the transfer protocol engine

The sender (`client/`) encrypts a file, hex-encodes it, cuts the hex text into
chunks and sends `init`, `chunk` and `complete` requests; the receiver
(`server/`) keeps the in-flight transfers in a table, reassembles, verifies and
decrypts.

Conventions of the embedding:

* a Go `string` / `[]byte` is a list of bytes (`Fin 256`), `len` is `List.length`;
* a Go `int` is an `Int`; no computation below leaves the 64-bit range for
  strings shorter than `2^62` bytes, and `strconv.Atoi` enforces the range on input;
* a Go `map` with `string` keys is a function into `Option`; the chunk map, whose
  `len` is observed, is an association list read by first match;
* a `time.Time` is a number of nanoseconds;
* the cryptographic primitives of the Go standard library (`crypto/md5`,
  `crypto/sha256`, AES-GCM) and the file system are parameters;
* a run-time panic or a loop that never ends is the result `none`;
* logging (`log.Printf`, the verbose mode, the progress bar) changes neither the
  store nor a response and is left out.
-/

namespace Ssrfleak

/-! ## Go strings -/

/-- One byte of a Go string or byte slice. -/
abbrev Byte := Fin 256

/-- Go `string`: an immutable sequence of bytes. -/
abbrev GoString := List Byte

/-- Bytes of an ASCII string literal of the source. -/
def str (s : String) : GoString :=
  s.toList.map (fun c => (⟨c.toNat % 256, Nat.mod_lt _ (by decide)⟩ : Byte))

/-- Go slice expression `s[lo:hi]`; panics (`none`) unless `0 ≤ lo ≤ hi ≤ len(s)`. -/
def slice (s : GoString) (lo hi : Int) : Option GoString :=
  if 0 ≤ lo ∧ lo ≤ hi ∧ hi ≤ (s.length : Int) then
    some ((s.drop lo.toNat).take (hi - lo).toNat)
  else none

/-! ## client/modules/handleFile.go -/

/-- Constant `MaxPayloadLength`: the maximum allowed length for a request path. -/
def MaxPayloadLength : Int := 2000

/-- The loop of `SplitHexString`, `for i := 0; i < strLen; i += chunkSize`, run for
at most `fuel` iterations from loop variable `i` with `chunks` accumulated so far.
`none` when a slice expression panics or the loop has not ended within `fuel`
iterations. -/
def splitLoop (hexString : GoString) (chunkSize : Int) :
    Nat → Int → List GoString → Option (List GoString)
  | 0, i, chunks => if i < (hexString.length : Int) then none else some chunks
  | fuel + 1, i, chunks =>
    if i < (hexString.length : Int) then
      let stop : Int :=
        if i + chunkSize > (hexString.length : Int) then (hexString.length : Int)
        else i + chunkSize
      match slice hexString i stop with
      | none => none
      | some c => splitLoop hexString chunkSize fuel (i + chunkSize) (chunks ++ [c])
    else some chunks

/-- Function `SplitHexString`: splits a hex string into chunks of the given size.
The loop variable grows by `chunkSize` each round, so `len(hexString)` rounds are
enough whenever `chunkSize ≥ 1`; with `chunkSize = 0` and a non-empty string the
Go loop never ends, with `chunkSize < 0` the first slice panics: both are `none`. -/
def SplitHexString (hexString : GoString) (chunkSize : Int) : Option (List GoString) :=
  splitLoop hexString chunkSize hexString.length 0 []

/-- Function `Min`: the smaller of two integers. -/
def Min (a b : Int) : Int := if a < b then a else b

/-- Constant `pathOverhead` of `CalculateOptimalChunkSize`. -/
def pathOverhead : Int := 84

/-- Function `CalculateOptimalChunkSize`: chunk size chosen from the data length. -/
def CalculateOptimalChunkSize (data : GoString) : Int :=
  let dataLen : Int := data.length
  let maxChunkSize := MaxPayloadLength - pathOverhead
  if maxChunkSize ≤ 0 then 500
  else if dataLen < 20000 then Min 1000 maxChunkSize
  else if dataLen < 200000 then Min 1500 maxChunkSize
  else if dataLen < 2000000 then Min 5000 maxChunkSize
  else if dataLen < 20000000 then Min 10000 maxChunkSize
  else Min 15000 maxChunkSize

/-- The nominal chunk size by payload-length band, in the words of the
specification: 1000 below 20000 characters, 1500 below 200000, 5000 below
2000000, 10000 below 20000000 and 15000 otherwise. -/
def nominalBand (n : Nat) : Int :=
  if n < 20000 then 1000
  else if n < 200000 then 1500
  else if n < 2000000 then 5000
  else if n < 20000000 then 10000
  else 15000

/-! ## Go standard library: strings, strconv, fmt, encoding/hex, time -/

/-- The byte of `/`. -/
def slash : Byte := 47

/-- Call `strings.Trim(s, "/")`: all leading and trailing slashes removed. -/
def stringsTrim (s : GoString) : GoString :=
  (s.dropWhile (fun c => c == slash)).rdropWhile (fun c => c == slash)

/-- Call `strings.Split(s, "/")`: the fields between slashes; one more field than
there are slashes, so the empty string gives one empty field. -/
def stringsSplit : GoString → List GoString
  | [] => [[]]
  | c :: cs =>
    if c = slash then [] :: stringsSplit cs
    else
      match stringsSplit cs with
      | [] => [[c]]
      | w :: ws => (c :: w) :: ws

/-- Call `strings.TrimPrefix(s, "/")`: one leading slash removed, when there is one. -/
def trimPrefixSlash : GoString → GoString
  | [] => []
  | c :: cs => if c = slash then cs else c :: cs

/-- Call `strings.HasSuffix(s, "/")`. -/
def hasSuffixSlash (s : GoString) : Bool := s.getLast? == some slash

/-- Whether a byte is an ASCII decimal digit. -/
def isDigit (c : Byte) : Bool := decide (48 ≤ c.val ∧ c.val ≤ 57)

/-- The number written by a sequence of decimal digits. -/
def digitsValue (ds : GoString) : Nat := ds.foldl (fun n ch => n * 10 + (ch.val - 48)) 0

/-- Call `strconv.Atoi(s)`: an optional sign, then one or more decimal digits, the
value within the range of a 64-bit `int`; `none` for a syntax or range error. -/
def Atoi (s : GoString) : Option Int :=
  let signed : Bool × GoString :=
    match s with
    | [] => (false, [])
    | c :: rest =>
      if c.val = 45 then (true, rest) else if c.val = 43 then (false, rest) else (false, c :: rest)
  let ds := signed.2
  if ds = [] ∨ ds.all isDigit = false then none
  else if signed.1 then
    (if digitsValue ds ≤ 2 ^ 63 then some (-(digitsValue ds : Int)) else none)
  else
    (if digitsValue ds < 2 ^ 63 then some (digitsValue ds : Int) else none)

/-- The verb `%d` of `fmt` on an `int`: decimal digits, a minus sign before a
negative number. -/
def formatInt (n : Int) : GoString :=
  if n < 0 then str "-" ++ str (Nat.repr n.natAbs) else str (Nat.repr n.toNat)

/-- The table `hextable` of `encoding/hex`. -/
def hextable : GoString := str "0123456789abcdef"

/-- Call `hex.EncodeToString(src)`: two lower-case hex digits per byte, high nibble
first. -/
def EncodeToString (src : List Byte) : GoString :=
  src.flatMap (fun v => [hextable.getD (v.val / 16) 0, hextable.getD (v.val % 16) 0])

/-- The table `reverseHexTable` of `encoding/hex`: the value of a hex digit of
either case, `none` for any other byte. -/
def fromHexChar (c : Byte) : Option Nat :=
  if 48 ≤ c.val ∧ c.val ≤ 57 then some (c.val - 48)
  else if 97 ≤ c.val ∧ c.val ≤ 102 then some (c.val - 97 + 10)
  else if 65 ≤ c.val ∧ c.val ≤ 70 then some (c.val - 65 + 10)
  else none

/-- Call `hex.DecodeString(s)`: pairs of hex digits to bytes; the error text is that
of `InvalidByteError` for the first byte that is no hex digit (its rendering by the
verb `%#U` is the parameter `fmtU`), or of `ErrLength` for an odd length. -/
def DecodeString (fmtU : Byte → GoString) : GoString → Except GoString (List Byte)
  | [] => .ok []
  | [p] =>
    match fromHexChar p with
    | none => .error (str "encoding/hex: invalid byte: " ++ fmtU p)
    | some _ => .error (str "encoding/hex: odd length hex string")
  | p :: q :: rest =>
    match fromHexChar p with
    | none => .error (str "encoding/hex: invalid byte: " ++ fmtU p)
    | some a =>
      match fromHexChar q with
      | none => .error (str "encoding/hex: invalid byte: " ++ fmtU q)
      | some b =>
        match DecodeString fmtU rest with
        | .error e => .error e
        | .ok bytes => .ok ((⟨(a * 16 + b) % 256, Nat.mod_lt _ (by decide)⟩ : Byte) :: bytes)

/-- Method `Time.Sub` on two instants given in nanoseconds: the difference as a
`time.Duration`, saturated to the range of a 64-bit integer. -/
def timeSub (t u : Int) : Int := max (-(2 ^ 63)) (min (2 ^ 63 - 1) (t - u))

/-- Constant `time.Minute`, in nanoseconds. -/
def Minute : Int := 60 * 1000000000

/-! ## server/modules/handler.go: the record of a transfer -/

/-- The field `Chunks map[int]string`: an association list read by first match. -/
abbrev ChunkMap := List (Int × GoString)

/-- Map read `m[k]` with its presence flag. -/
def chunkGet (m : ChunkMap) (k : Int) : Option GoString := m.lookup k

/-- Map write `m[k] = v`. -/
def chunkSet (m : ChunkMap) (k : Int) (v : GoString) : ChunkMap :=
  (k, v) :: m.filter (fun p => p.1 != k)

/-- Call `len(m)`: the number of distinct keys. -/
def chunkLen (m : ChunkMap) : Int := ((m.map Prod.fst).dedup.length : Int)

/-- Struct `FileTransfer`: an in-progress file transfer. -/
structure FileTransfer where
  ID : GoString
  Filename : GoString
  TotalChunks : Int
  FileSize : Int
  Chunks : ChunkMap
  Created : Int
  LastUpdated : Int
  Checksum : GoString
  deriving DecidableEq

/-! ## The libraries and the world outside, as parameters -/

/-- What the program takes from outside its own source: the cryptographic
primitives of the standard library, the rendering of a byte in an error text, the
file system, the memory the runtime can give, what is seen of a record outside the
lock, and the values of the server's globals `encryptionKey` and `verboseMode`. -/
structure Env where
  /-- Function `md5.Sum`: a 16-byte digest. -/
  md5Sum : GoString → {d : List Byte // d.length = 16}
  /-- SHA-256 (`sha256.New`, `Write`, `Sum(nil)`): a 32-byte digest. -/
  sha256Sum : GoString → {d : List Byte // d.length = 32}
  /-- AES-GCM `Seal` without destination: key, nonce, plaintext to ciphertext and tag.
  The library's `Seal` panics on a plaintext longer than `gcmMaxPlaintext`. -/
  gcmSeal : List Byte → List Byte → List Byte → List Byte
  /-- AES-GCM `Open`: key, nonce, ciphertext and tag to plaintext, `none` when
  authentication fails. -/
  gcmOpen : List Byte → List Byte → List Byte → Option (List Byte)
  /-- The verb `%#U` of `fmt` on a byte. -/
  fmtU : Byte → GoString
  /-- Function `filepath.Join` on two elements. -/
  filepathJoin : GoString → GoString → GoString
  /-- Function `os.WriteFile` at a path: `none` on success, else the error text. -/
  writeFile : GoString → List Byte → Option GoString
  /-- The server's global variable `encryptionKey`. -/
  encryptionKey : GoString
  /-- The server's global variable `verboseMode`, set by the flag `-v`. -/
  verboseMode : Bool
  /-- The largest size that `builder.Grow` can allocate: beyond it `Grow` does not
  return (`makeslice: len out of range`, or the runtime stops with
  `out of memory`). -/
  maxAlloc : Int
  /-- The largest number of missing indices that the verbose block of
  `handleCompleteRequest` can collect with `append` and print: beyond it the block
  does not end (`growslice: len out of range`, or the runtime stops with
  `out of memory`). -/
  maxListing : Int
  /-- What a handler reads through its `*FileTransfer` after `transfersMutex.Unlock()`:
  the record it holds, as other requests may have left it in the meantime. Nothing
  is assumed about it. -/
  readUnlocked : FileTransfer → FileTransfer

/-- Function `CalculateMD5` (client) and `calculateMD5` (server): the hex text of the
MD5 digest of a string. -/
def calculateMD5 (env : Env) (data : GoString) : GoString :=
  EncodeToString (env.md5Sum data).val

/-- The nonce size of the standard GCM mode, `gcm.NonceSize()`. -/
def gcmNonceSize : Nat := 12

/-- Function `OriginalEncryptFile`, given the outcome of `os.ReadFile` and of drawing
the nonce from `rand.Reader`. The key is the SHA-256 digest of the key string, 32
bytes, for which `aes.NewCipher` and `cipher.NewGCM` return no error. -/
def OriginalEncryptFile (env : Env) (readFile : Except GoString (List Byte))
    (keyString : GoString)
    (randNonce : Except GoString {n : List Byte // n.length = gcmNonceSize}) :
    Except GoString GoString :=
  match readFile with
  | .error e => .error (str "failed to read file: " ++ e)
  | .ok plaintext =>
    let key := (env.sha256Sum keyString).val
    match randNonce with
    | .error e => .error (str "failed to generate nonce: " ++ e)
    | .ok nonce =>
      let ciphertext := nonce.val ++ env.gcmSeal key nonce.val plaintext
      .ok (EncodeToString ciphertext)

/-! ## client/modules/handleRequest.go and the chunk loop of client/main.go -/

/-- Constant `URLSuffix`. -/
def URLSuffix : GoString := str "/@v/v1.info"

/-- Function `SendRequest`: `none` is the nil error. The HTTP round trip
(`http.NewRequest`, `client.Do`) is the parameter `transport`, from the full URL to
the error that `SendRequest` then returns, if any. -/
def SendRequest (transport : GoString → Option GoString) (baseURL path : GoString) :
    Option GoString :=
  let baseURL := if hasSuffixSlash baseURL then baseURL else baseURL ++ str "/"
  let path := trimPrefixSlash path
  if (path.length : Int) > MaxPayloadLength then
    some (str "payload length (" ++ formatInt path.length ++
      str ") exceeds maximum allowed length (" ++ formatInt MaxPayloadLength ++ str ")")
  else
    transport (baseURL ++ path ++ URLSuffix)

/-- The request path built in `main` for chunk `i`:
`fmt.Sprintf("chunk/%s/%d/%s/%s", transferID, i, chunkChecksum, chunk)`. -/
def chunkPath (env : Env) (transferID : GoString) (i : Int) (chunk : GoString) : GoString :=
  str "chunk/" ++ transferID ++ str "/" ++ formatInt i ++ str "/" ++
    calculateMD5 env chunk ++ str "/" ++ chunk

/-! ## server/modules: the transfer table -/

/-- The global `transfers map[string]*FileTransfer`. Requests are taken one at a
time, as under `transfersMutex`. -/
abbrev Store := GoString → Option FileTransfer

/-- The empty table, `make(map[string]*FileTransfer)`. -/
def emptyStore : Store := fun _ => none

/-- What a handler leaves on the connection: a response with its status code and
body, or nothing, when the handler does not return: a panic (recovered by
`net/http`, which then sends no response) or a fatal error of the runtime. -/
inductive Outcome where
  | response (status : Nat) (body : GoString)
  | panic
  deriving DecidableEq

/-- Call `http.Error(w, msg, code)`: the message and a newline under the status code. -/
def httpError (msg : GoString) (code : Nat) : Outcome := .response code (msg ++ str "\n")

/-- Call `fmt.Fprint(w, "OK")`: the body `OK` under status 200. -/
def respondOK : Outcome := .response 200 (str "OK")

/-! ## server/modules/processor.go -/

/-- Function `ConcatenateChunks`: the chunks stored at the indices
`0 .. TotalChunks-1`, in that order, a missing one skipped. The call
`builder.Grow(transfer.FileSize)` panics on a negative `FileSize` and does not
return either when `FileSize` is more than can be allocated. -/
def ConcatenateChunks (env : Env) (transfer : FileTransfer) : Option GoString :=
  if transfer.FileSize < 0 ∨ transfer.FileSize > env.maxAlloc then none
  else
    some ((List.range transfer.TotalChunks.toNat).foldl
      (fun (builder : GoString) (i : Nat) =>
        match chunkGet transfer.Chunks (i : Int) with
        | some chunk => builder ++ chunk
        | none => builder) [])

/-- Function `DecryptAES256`: hex text to plaintext under the global key. The key is a
SHA-256 digest, 32 bytes, for which `aes.NewCipher` and `cipher.NewGCM` return no
error. -/
def DecryptAES256 (env : Env) (encryptedHex : GoString) : Except GoString (List Byte) :=
  match DecodeString env.fmtU encryptedHex with
  | .error e => .error (str "failed to decode hex: " ++ e)
  | .ok encryptedData =>
    let key := (env.sha256Sum env.encryptionKey).val
    let nonceSize := gcmNonceSize
    if encryptedData.length < nonceSize then .error (str "ciphertext too short")
    else
      let nonce := encryptedData.take nonceSize
      let ciphertext := encryptedData.drop nonceSize
      match env.gcmOpen key nonce ciphertext with
      | none => .error (str "failed to decrypt: cipher: message authentication failed")
      | some plaintext => .ok plaintext

/-- Function `ProcessCompletedTransfer`: decrypts the reassembled data and writes the
file; the output path or the error text, `none` for a panic. -/
def ProcessCompletedTransfer (env : Env) (transfers : Store) (transferID : GoString) :
    Option (Except GoString GoString) :=
  match transfers transferID with
  | none => some (.error (str "transfer not found: " ++ transferID))
  | some transfer =>
    match ConcatenateChunks env transfer with
    | none => none
    | some hexData =>
      match DecryptAES256 env hexData with
      | .error e => some (.error (str "error decrypting data: " ++ e))
      | .ok outputData =>
        let outputFilename :=
          if transfer.Filename ≠ [] then transfer.Filename else transfer.ID ++ str ".bin"
        let outputPath := env.filepathJoin (str "received_files") outputFilename
        match env.writeFile outputPath outputData with
        | some e => some (.error (str "error writing file: " ++ e))
        | none => some (.ok outputPath)

/-- Function `ScheduleCleanup` at clock reading `now`: every transfer not updated
for more than 30 minutes is deleted. -/
def ScheduleCleanup (now : Int) (transfers : Store) : Store :=
  fun id =>
    match transfers id with
    | none => none
    | some transfer =>
      if timeSub now transfer.LastUpdated > 30 * Minute then none else some transfer

/-! ## server/modules/handler.go -/

/-- Function `handleInitRequest`; `now k` is the `k`-th reading of `time.Now()`. -/
def handleInitRequest (now : Nat → Int) (components : List GoString) (transfers : Store) :
    Outcome × Store :=
  match components with
  | [_, transferID, c2, c3, filename] =>
    match Atoi c2 with
    | none => (httpError (str "Invalid total chunks") 400, transfers)
    | some totalChunks =>
      match Atoi c3 with
      | none => (httpError (str "Invalid file size") 400, transfers)
      | some fileSize =>
        let transfer : FileTransfer :=
          { ID := transferID, Filename := filename, TotalChunks := totalChunks,
            FileSize := fileSize, Chunks := [], Created := now 0, LastUpdated := now 1,
            Checksum := [] }
        (respondOK, Function.update transfers transferID (some transfer))
  | _ => (httpError (str "Invalid init request format") 400, transfers)

/-- Go `int` addition wraps around at 64 bits. -/
def wrap64 (n : Int) : Int := (n + 2 ^ 63) % 2 ^ 64 - 2 ^ 63

/-- The line that the verbose block of `handleChunkRequest` logs,
`Received chunk %d/%d for transfer %s (file: %s)`, by its four arguments. -/
structure ChunkLog where
  received : Int
  total : Int
  id : GoString
  filename : GoString
  deriving DecidableEq

/-- Function `handleChunkRequest`: the response, the store, and what the verbose
block logs. The lookup and the write are one critical section. The verbose block
runs after the unlock: it reads `transfer.TotalChunks` and `transfer.Filename`
through the pointer, outside the lock, which is `env.readUnlocked` of the record
just written. -/
def handleChunkRequest (env : Env) (now : Nat → Int) (components : List GoString)
    (transfers : Store) : (Outcome × Store) × Option ChunkLog :=
  match components with
  | [_, transferID, c2, chunkChecksum, chunkData] =>
    match Atoi c2 with
    | none => ((httpError (str "Invalid chunk index") 400, transfers), none)
    | some chunkIndex =>
      if calculateMD5 env chunkData ≠ chunkChecksum then
        ((httpError (str "Checksum verification failed") 400, transfers), none)
      else
        match transfers transferID with
        | none => ((httpError (str "Transfer not found") 404, transfers), none)
        | some transfer =>
          let written : FileTransfer :=
            { transfer with
              Chunks := chunkSet transfer.Chunks chunkIndex chunkData,
              LastUpdated := now 0 }
          ((respondOK, Function.update transfers transferID (some written)),
            if env.verboseMode = true then
              some { received := wrap64 (chunkIndex + 1),
                     total := (env.readUnlocked written).TotalChunks,
                     id := transferID,
                     filename := (env.readUnlocked written).Filename }
            else none)
  | _ => ((httpError (str "Invalid chunk request format") 400, transfers), none)

/-- The slice `missingChunks` that the verbose block of `handleCompleteRequest`
builds: every index in `0 .. TotalChunks-1` that the chunk map does not hold. -/
def missingChunks (transfer : FileTransfer) : List Int :=
  ((List.range transfer.TotalChunks.toNat).filter
    (fun (i : Nat) => (chunkGet transfer.Chunks (i : Int)).isNone)).map
    (fun (i : Nat) => (i : Int))

/-- Function `handleCompleteRequest`. In verbose mode the handler first lists the
missing chunks, under the lock: a loop of `TotalChunks` rounds that appends every
missing index to a slice, which it then prints; when there are more of them than
`env.maxListing` the handler does not return. -/
def handleCompleteRequest (env : Env) (components : List GoString) (transfers : Store) :
    Outcome × Store :=
  match components with
  | [_, transferID, expectedChecksum] =>
    match transfers transferID with
    | none => (httpError (str "Transfer not found") 404, transfers)
    | some transfer =>
      if env.verboseMode = true ∧
          ((missingChunks transfer).length : Int) > env.maxListing then
        (.panic, transfers)
      else if chunkLen transfer.Chunks ≠ transfer.TotalChunks then
        (httpError (str "Missing chunks: " ++ formatInt (chunkLen transfer.Chunks) ++ str "/" ++
          formatInt transfer.TotalChunks ++ str " received") 400, transfers)
      else
        match ConcatenateChunks env transfer with
        | none => (.panic, transfers)
        | some completeData =>
          if calculateMD5 env completeData ≠ expectedChecksum then
            (httpError (str "Full data checksum verification failed") 400, transfers)
          else
            let transfers1 := Function.update transfers transferID
              (some { transfer with Checksum := expectedChecksum })
            match ProcessCompletedTransfer env transfers1 transferID with
            | none => (.panic, transfers1)
            | some (.error err) =>
              (httpError (str "Error processing transfer: " ++ err) 500, transfers1)
            | some (.ok _) => (respondOK, transfers1)
  | _ => (httpError (str "Invalid complete request format") 400, transfers)

/-- Function `HandleRequest` on the request's `URL.Path`. -/
def HandleRequest (env : Env) (now : Nat → Int) (urlPath : GoString) (transfers : Store) :
    Outcome × Store :=
  let path := stringsTrim urlPath
  let components := stringsSplit path
  if components.length < 2 then (httpError (str "Invalid request format") 400, transfers)
  else
    let action := components.headD []
    if action = str "init" then handleInitRequest now components transfers
    else if action = str "chunk" then (handleChunkRequest env now components transfers).1
    else if action = str "complete" then handleCompleteRequest env components transfers
    else (httpError (str "Unknown action") 400, transfers)

/-! ## Specification-side definitions -/

/-- The chunks that `SplitHexString` is expected to produce, written without a
loop: chunk `j` is the slice of `size` bytes starting at `j * size`, for `j < k`. -/
def sliceList (s : GoString) (size k : Nat) : List GoString :=
  (List.range k).map (fun j => (s.drop (j * size)).take size)

/-- The number of chunks: `ceil(len / size)` in natural-number arithmetic. -/
def chunkCount (len size : Nat) : Nat := (len + size - 1) / size

/-! ## A small concrete environment, for evaluating the definitions -/

/-- A stand-in environment: constant digests, a cipher that leaves the text as it
is, a file system on which every write succeeds, the key `k`, verbose mode off,
allocations of up to `2^48` bytes, requests that do not overlap. -/
def demoEnv : Env where
  md5Sum := fun _ => ⟨List.replicate 16 0, by decide⟩
  sha256Sum := fun _ => ⟨List.replicate 32 0, by decide⟩
  gcmSeal := fun _ _ plaintext => plaintext
  gcmOpen := fun _ _ ciphertext => some ciphertext
  fmtU := fun _ => []
  filepathJoin := fun dir file => dir ++ str "/" ++ file
  writeFile := fun _ _ => none
  encryptionKey := str "k"
  verboseMode := false
  maxAlloc := 281474976710656
  maxListing := 35184372088832
  readUnlocked := fun transfer => transfer

/-- The hex text of the digest in `demoEnv`: 32 zeros. -/
def demoSum : GoString := List.replicate 32 48

/-- A clock standing at zero. -/
def demoClock : Nat → Int := fun _ => 0

/-- The concatenation, in ascending index order, of the chunks a chunk map holds at
the indices `0 .. total-1`. -/
def orderedConcat (m : ChunkMap) (total : Int) : GoString :=
  (List.range total.toNat).flatMap (fun i => (chunkGet m (i : Int)).getD [])

/-- A chunk map holds every index in `[0, total)`. -/
def HoldsAll (m : ChunkMap) (total : Int) : Prop :=
  ∀ i : Int, 0 ≤ i → i < total → chunkGet m i ≠ none

/-- Every key of a chunk map lies in `[0, total)`. -/
def KeysWithin (m : ChunkMap) (total : Int) : Prop :=
  ∀ k : Int, chunkGet m k ≠ none → 0 ≤ k ∧ k < total

/-- Every key of every transfer's chunk map lies in `[0, TotalChunks)`. -/
def KeysInRange (store : Store) : Prop :=
  ∀ id t, store id = some t → KeysWithin t.Chunks t.TotalChunks

/-- The path `ProcessCompletedTransfer` writes to: the file name of the transfer, or
its id with `.bin`, under `received_files`. -/
def outputPathOf (env : Env) (t : FileTransfer) : GoString :=
  env.filepathJoin (str "received_files")
    (if t.Filename ≠ [] then t.Filename else t.ID ++ str ".bin")

/-! ## Runs of the server -/

/-- What happens to the store: a request arrives (with the clock readings taken
while it is served), or the periodic sweep runs. -/
inductive Event where
  | request (now : Nat → Int) (urlPath : GoString)
  | sweep (now : Int)

/-- The store after one event. -/
def step (env : Env) (store : Store) : Event → Store
  | .request now urlPath => (HandleRequest env now urlPath store).2
  | .sweep now => ScheduleCleanup now store

/-- The store reached from the empty store by a sequence of events. A request that
ends in a panic leaves the store as it stands; the run goes on, which covers every
state the server can be in afterwards. -/
def run (env : Env) (events : List Event) : Store := events.foldl (step env) emptyStore

/-- Whether a request, if it is a chunk request that `handleChunkRequest` accepts (a
numeric index, a checksum that matches the payload, a transfer in the store),
carries an index within `[0, TotalChunks)` of that transfer. -/
def chunkIndexWithin (env : Env) (store : Store) (urlPath : GoString) : Bool :=
  match stringsSplit (stringsTrim urlPath) with
  | [action, id, index, checksum, payload] =>
    if action = str "chunk" ∧ calculateMD5 env payload = checksum then
      match Atoi index, store id with
      | some k, some t => decide (0 ≤ k ∧ k < t.TotalChunks)
      | _, _ => true
    else true
  | _ => true

/-- Every accepted chunk request of a run from `store` carries an index within range
for the transfer it addresses at that moment. -/
def indicesWithin (env : Env) : Store → List Event → Bool
  | _, [] => true
  | store, .request now urlPath :: rest =>
    chunkIndexWithin env store urlPath &&
      indicesWithin env (step env store (.request now urlPath)) rest
  | store, .sweep now :: rest => indicesWithin env (step env store (.sweep now)) rest

/-! ## Concrete requests, for evaluating the definitions -/

/-- An init request for transfer `t`: one chunk, two bytes, file name `f`. -/
def demoInit : GoString := str "init/t/1/2/f"

/-- A chunk request for transfer `t`: index 0, payload `ab`, with the checksum that
`demoEnv` computes. -/
def demoChunk : GoString := str "chunk/t/0/00000000000000000000000000000000/ab"

/-- A chunk request for transfer `t` at index 7. -/
def demoChunk7 : GoString := str "chunk/t/7/00000000000000000000000000000000/ab"

/-- A complete request for transfer `t`, with the checksum that `demoEnv` computes. -/
def demoComplete : GoString := str "complete/t/00000000000000000000000000000000"

/-- The store after `demoInit` and `demoChunk`. -/
def demoStore : Store :=
  run demoEnv [.request demoClock demoInit, .request demoClock demoChunk]

/-- The condition under which, in the words of the specification, a complete request
succeeds: the transfer's chunk map holds every index in `[0, totalChunks)` and the
MD5 of the concatenation of those chunks in ascending index order is the declared
checksum. -/
def completeAsSpecified (env : Env) (store : Store) (id declared : GoString) : Prop :=
  ∃ t, store id = some t ∧ HoldsAll t.Chunks t.TotalChunks ∧
    calculateMD5 env (orderedConcat t.Chunks t.TotalChunks) = declared

/-- An init request for transfer `t` that declares the file size `-1`. -/
def demoInitNegative : GoString := str "init/t/1/-1/f"

/-- The store after an init request for transfer `w` expecting five chunks and chunk
requests at the indices 0, 1 and 2. -/
def demoStorePartial : Store :=
  run demoEnv
    [.request demoClock (str "init/w/5/10/f"),
     .request demoClock (str "chunk/w/0/00000000000000000000000000000000/ab"),
     .request demoClock (str "chunk/w/1/00000000000000000000000000000000/cd"),
     .request demoClock (str "chunk/w/2/00000000000000000000000000000000/ef")]

/-- The record of transfer `w` in `demoStorePartial`. -/
def demoPartial : FileTransfer :=
  { ID := str "w", Filename := str "f", TotalChunks := 5, FileSize := 10,
    Chunks := [(2, str "ef"), (1, str "cd"), (0, str "ab")],
    Created := 0, LastUpdated := 0, Checksum := [] }

/-- A clock whose `k`-th reading is `100 + k`. -/
def demoClockLate : Nat → Int := fun k => 100 + (k : Int)

/-- The chunk map of transfer `id` in `store` holds `payload` at index `i`. -/
def holdsChunk (store : Store) (id : GoString) (i : Int) (payload : GoString) : Prop :=
  ∃ t, store id = some t ∧ chunkGet t.Chunks i = some payload

/-- The store in which transfer `id`, when present, has `payload` written at index `i`
and `LastUpdated` set to `time`; nothing else differs from `store`. -/
def writeChunk (store : Store) (id : GoString) (i : Int) (payload : GoString) (time : Int) :
    Store :=
  match store id with
  | none => store
  | some t =>
    Function.update store id
      (some { t with Chunks := chunkSet t.Chunks i payload, LastUpdated := time })

/-- A decimal integer, as text: an optional sign followed by one or more decimal
digits. -/
def isDecimalInteger (s : GoString) : Bool :=
  match s with
  | [] => false
  | c :: rest =>
    if c.val = 45 ∨ c.val = 43 then (!rest.isEmpty) && rest.all isDigit
    else (c :: rest).all isDigit

/-- The fields of a request path, as `HandleRequest` takes them: the path without its
leading and trailing slashes, split at the slashes. -/
def requestFields (urlPath : GoString) : List GoString := stringsSplit (stringsTrim urlPath)

/-- A malformed request, in the words of the specification: the first field is not
one of `init`, `chunk`, `complete`, or the number of fields differs from the arity
of the selected handler (5 for init, 5 for chunk, 3 for complete), or a numeric
field (the total chunks and the file size of an init request, the index of a chunk
request) is not a decimal integer. -/
def malformedRequest (fields : List GoString) : Bool :=
  let action := fields.headD []
  decide (action ≠ str "init" ∧ action ≠ str "chunk" ∧ action ≠ str "complete") ||
  decide (action = str "init" ∧ fields.length ≠ 5) ||
  decide (action = str "chunk" ∧ fields.length ≠ 5) ||
  decide (action = str "complete" ∧ fields.length ≠ 3) ||
  (decide (action = str "init") &&
    (!isDecimalInteger (fields.getD 2 []) || !isDecimalInteger (fields.getD 3 []))) ||
  (decide (action = str "chunk") && !isDecimalInteger (fields.getD 2 []))

/-! ## client/main.go: the transmission loop -/

/-- Constant `time.Second`, in nanoseconds. -/
def Second : Int := 1000000000

/-- Constant `time.Millisecond`, in nanoseconds. -/
def Millisecond : Int := 1000000

/-- What the sender does to the world, in order: a call of `SendRequest` at one of its
three call sites with the path sent and the error returned, or a `time.Sleep`. A
chunk request carries the loop variables `i` and `attempt` of its call. -/
inductive Effect where
  | initRequest (path : GoString) (err : Option GoString)
  | chunkRequest (i : Nat) (attempt : Nat) (path : GoString) (err : Option GoString)
  | completeRequest (path : GoString) (err : Option GoString)
  | sleep (duration : Int)
  deriving DecidableEq

/-- The transport behind each call of `SendRequest`: for the init request, for
attempt `attempt` of chunk `i`, and for the complete request, the function from
the full URL to the error of the round trip, if any. -/
structure Network where
  init : GoString → Option GoString
  chunk : Nat → Nat → GoString → Option GoString
  complete : GoString → Option GoString

/-- The retry loop of `main`, `for attempt := 1; attempt <= maxRetries; attempt++`,
over the attempts still to make: the flag `success` and the effects so far. -/
def retryLoop (transport : Nat → GoString → Option GoString) (baseURL chunkPath : GoString)
    (i : Nat) (maxRetries : Nat) : List Nat → List Effect → Bool × List Effect
  | [], log => (false, log)
  | attempt :: later, log =>
    match SendRequest (transport attempt) baseURL chunkPath with
    | none => (true, log ++ [Effect.chunkRequest i attempt chunkPath none])
    | some err =>
      if attempt < maxRetries then
        retryLoop transport baseURL chunkPath i maxRetries later
          (log ++ [Effect.chunkRequest i attempt chunkPath (some err),
            Effect.sleep ((attempt : Int) * Second)])
      else
        retryLoop transport baseURL chunkPath i maxRetries later
          (log ++ [Effect.chunkRequest i attempt chunkPath (some err)])

/-- The chunk loop of `main`, `for i, chunk := range chunks`, from index `i` over the
chunks still to send: whether the loop ran to its end (`false` when `main` returned
after a chunk failed) and the effects so far. -/
def chunkLoop (env : Env) (net : Network) (baseURL transferID : GoString)
    (totalChunks : Int) : Nat → List GoString → List Effect → Bool × List Effect
  | _, [], log => (true, log)
  | i, chunk :: rest, log =>
    let r := retryLoop (net.chunk i) baseURL (chunkPath env transferID (i : Int) chunk) i 3
      (List.range' 1 3) log
    if r.1 = false then (false, r.2)
    else if (i : Int) < totalChunks - 1 then
      chunkLoop env net baseURL transferID totalChunks (i + 1) rest
        (r.2 ++ [Effect.sleep (500 * Millisecond)])
    else chunkLoop env net baseURL transferID totalChunks (i + 1) rest r.2

/-- The path of the complete request built in `main`. -/
def completePath (env : Env) (transferID encryptedData : GoString) : GoString :=
  str "complete/" ++ transferID ++ str "/" ++ calculateMD5 env encryptedData

/-- The part of `main` after the init request: the chunk loop and, when it ran to
its end, the complete request. -/
def sendAll (env : Env) (net : Network) (baseURL transferID encryptedData : GoString)
    (chunks : List GoString) (log : List Effect) : List Effect :=
  let r := chunkLoop env net baseURL transferID (chunks.length : Int) 0 chunks log
  if r.1 = false then r.2
  else
    r.2 ++ [Effect.completeRequest (completePath env transferID encryptedData)
      (SendRequest net.complete baseURL (completePath env transferID encryptedData))]

/-- Function `main` from the encrypted data on: the effects of the run, `none` when
the split does not return. A failed init request ends the run (`log.Fatalf`). -/
def mainTransfer (env : Env) (net : Network) (baseURL fileName encryptedData : GoString) :
    Option (List Effect) :=
  let transferID := calculateMD5 env encryptedData
  match SplitHexString encryptedData (CalculateOptimalChunkSize encryptedData) with
  | none => none
  | some chunks =>
    let initPath := str "init/" ++ transferID ++ str "/" ++ formatInt (chunks.length : Int) ++
      str "/" ++ formatInt (encryptedData.length : Int) ++ str "/" ++ fileName
    match SendRequest net.init baseURL initPath with
    | some err => some [Effect.initRequest initPath (some err)]
    | none =>
      some (sendAll env net baseURL transferID encryptedData chunks
        [Effect.initRequest initPath none])

/-! ## The transmission loop, in the words of the specification -/

/-- Whether attempt `attempt` of chunk `i` succeeds. -/
def attemptOK (net : Network) (baseURL path : GoString) (i attempt : Nat) : Bool :=
  (SendRequest (net.chunk i attempt) baseURL path).isNone

/-- Whether chunk `i` succeeds within its 3 attempts. -/
def chunkOK (net : Network) (baseURL path : GoString) (i : Nat) : Bool :=
  attemptOK net baseURL path i 1 || attemptOK net baseURL path i 2 ||
    attemptOK net baseURL path i 3

/-- The effect of attempt `attempt` of chunk `i`. -/
def attemptEffect (net : Network) (baseURL path : GoString) (i attempt : Nat) : Effect :=
  Effect.chunkRequest i attempt path (SendRequest (net.chunk i attempt) baseURL path)

/-- The attempts for one chunk: at most 3, stopping at the first success, with a wait
of `attempt` seconds after a failed attempt 1 or 2. -/
def specAttempts (net : Network) (baseURL path : GoString) (i : Nat) : List Effect :=
  if attemptOK net baseURL path i 1 then [attemptEffect net baseURL path i 1]
  else if attemptOK net baseURL path i 2 then
    [attemptEffect net baseURL path i 1, Effect.sleep (1 * Second),
     attemptEffect net baseURL path i 2]
  else
    [attemptEffect net baseURL path i 1, Effect.sleep (1 * Second),
     attemptEffect net baseURL path i 2, Effect.sleep (2 * Second),
     attemptEffect net baseURL path i 3]

/-- The chunks from index `i` on all succeed within their 3 attempts. -/
def allOKFrom (env : Env) (net : Network) (baseURL transferID : GoString) :
    Nat → List GoString → Bool
  | _, [] => true
  | i, chunk :: rest =>
    chunkOK net baseURL (chunkPath env transferID (i : Int) chunk) i &&
      allOKFrom env net baseURL transferID (i + 1) rest

/-- The effects of sending the chunks from index `i` on, in index order: the attempts
for a chunk, then, when it succeeded, the pacing delay unless it is the last chunk
and the chunks after it; nothing more once a chunk has failed all its attempts. -/
def specChunks (env : Env) (net : Network) (baseURL transferID : GoString)
    (totalChunks : Int) : Nat → List GoString → List Effect
  | _, [] => []
  | i, chunk :: rest =>
    specAttempts net baseURL (chunkPath env transferID (i : Int) chunk) i ++
      (if chunkOK net baseURL (chunkPath env transferID (i : Int) chunk) i then
        (if (i : Int) < totalChunks - 1 then [Effect.sleep (500 * Millisecond)] else []) ++
          specChunks env net baseURL transferID totalChunks (i + 1) rest
      else [])

/-- The chunk requests of a run, in order, as pairs of chunk index and attempt. -/
def chunkAttempts (trace : List Effect) : List (Nat × Nat) :=
  trace.filterMap (fun e =>
    match e with
    | Effect.chunkRequest i attempt _ _ => some (i, attempt)
    | _ => none)

/-- A complete request was sent in a run. -/
def completeSent (trace : List Effect) : Prop :=
  ∃ path err, Effect.completeRequest path err ∈ trace

/-- A network on which the first attempt of chunk 1 fails and every other call
succeeds. -/
def demoNet : Network where
  init := fun _ => none
  chunk := fun i attempt _ => if i = 1 ∧ attempt = 1 then some (str "timeout") else none
  complete := fun _ => none

/-- The order of chunk requests: an earlier chunk, or an earlier attempt for the same
chunk. -/
def attemptBefore (x y : Nat × Nat) : Prop := x.1 < y.1 ∨ (x.1 = y.1 ∧ x.2 < y.2)

/-- After every failed attempt 1 or 2 of a chunk the next effect of the run is a
sleep of `attempt` seconds. -/
def waitsAfterFailures (effects : List Effect) : Prop :=
  ∀ (n i a : Nat) (path err : GoString),
    effects[n]? = some (Effect.chunkRequest i a path (some err)) → a < 3 →
      effects[n + 1]? = some (Effect.sleep ((a : Int) * Second))

/-- The allocations of a complete request for a transfer succeed: `builder.Grow`
accepts the declared file size and, in verbose mode, the missing indices can be
listed. -/
def allocationsFit (env : Env) (t : FileTransfer) : Prop :=
  (0 ≤ t.FileSize ∧ t.FileSize ≤ env.maxAlloc) ∧
  (env.verboseMode = true → ((missingChunks t).length : Int) ≤ env.maxListing)

/-- The largest plaintext that the `Seal` of AES-GCM accepts, `((1 << 32) - 2) * 16`
bytes; on a longer one it panics. -/
def gcmMaxPlaintext : Nat := 68719476704

/-- The environment `demoEnv` with a cipher that appends a tag of 16 zero bytes and
opens only what ends in that tag. -/
def sealedEnv : Env :=
  { demoEnv with
    gcmSeal := fun _ _ plaintext => plaintext ++ List.replicate 16 0
    gcmOpen := fun _ _ ciphertext =>
      if 16 ≤ ciphertext.length ∧
          ciphertext.drop (ciphertext.length - 16) = List.replicate 16 0 then
        some (ciphertext.take (ciphertext.length - 16))
      else none }

/-- The environment `demoEnv` with the server in verbose mode. -/
def verboseEnv : Env := { demoEnv with verboseMode := true }

/-- The store after an init request for transfer `u` expecting one chunk and the
chunk request that brings it: the hex text of a 12-byte nonce and the 16-byte tag
of `sealedEnv`, an empty plaintext. -/
def demoStoreSealed : Store :=
  run sealedEnv
    [.request demoClock (str "init/u/1/56/f"),
     .request demoClock
       (str ("chunk/u/0/00000000000000000000000000000000/" ++
         "00000000000000000000000000000000000000000000000000000000"))]

/-- The record of transfer `u` in `demoStoreSealed`. -/
def demoSealed : FileTransfer :=
  { ID := str "u", Filename := str "f", TotalChunks := 1, FileSize := 56,
    Chunks := [(0, str "00000000000000000000000000000000000000000000000000000000")],
    Created := 0, LastUpdated := 0, Checksum := [] }

/-- The store after an init request for transfer `t` that declares
9223372036854775807 chunks. -/
def demoStoreHuge : Store :=
  run verboseEnv [.request demoClock (str "init/t/9223372036854775807/0/f")]

/-- The record of transfer `t` in `demoStoreHuge`. -/
def demoHuge : FileTransfer :=
  { ID := str "t", Filename := str "f", TotalChunks := 9223372036854775807, FileSize := 0,
    Chunks := [], Created := 0, LastUpdated := 0, Checksum := [] }

/-! ## Splitting: the loop computes the list of slices -/

theorem sliceList_succ (s : GoString) (size k : Nat) :
    sliceList s size (k + 1) = sliceList s size k ++ [(s.drop (k * size)).take size] := by
  simp [sliceList, List.range_succ]

theorem slice_step (s : GoString) (size m : Nat) (h : m * size < s.length) :
    slice s ((m * size : Nat) : Int)
      (if ((m * size : Nat) : Int) + (size : Int) > (s.length : Int) then (s.length : Int)
        else ((m * size : Nat) : Int) + (size : Int))
      = some ((s.drop (m * size)).take size) := by
  unfold slice
  split_ifs with h1 h2 h3
  · simp only [Int.toNat_ofNat, Option.some.injEq]
    have e : ((s.length : Int) - ((m * size : Nat) : Int)).toNat = s.length - m * size := by
      omega
    rw [e, List.take_of_length_le (by simp), List.take_of_length_le (by simp; omega)]
  · exfalso; omega
  · simp only [Int.toNat_ofNat, Option.some.injEq]
    have e : (((m * size : Nat) : Int) + (size : Int) - ((m * size : Nat) : Int)).toNat = size := by
      omega
    rw [e]
  · exfalso; omega

theorem splitLoop_spec (s : GoString) (size k : Nat)
    (hlt : ∀ j, j < k → j * size < s.length) (hge : s.length ≤ k * size) :
    ∀ (fuel m : Nat), m ≤ k → k ≤ m + fuel →
      splitLoop s (size : Int) fuel ((m * size : Nat) : Int) (sliceList s size m)
        = some (sliceList s size k) := by
  intro fuel
  induction fuel with
  | zero =>
    intro m hm hk
    have : m = k := by omega
    subst this
    simp only [splitLoop]
    rw [if_neg (by omega)]
  | succ fuel ih =>
    intro m hm hk
    rcases Nat.lt_or_ge m k with hmk | hmk
    · have hi := hlt m hmk
      simp only [splitLoop]
      rw [if_pos (by omega), slice_step s size m hi]
      simp only
      have e : ((m * size : Nat) : Int) + (size : Int) = (((m + 1) * size : Nat) : Int) := by
        push_cast; ring
      rw [e, ← sliceList_succ]
      exact ih (m + 1) (by omega) (by omega)
    · have : m = k := by omega
      subst this
      simp only [splitLoop]
      rw [if_neg (by omega)]

theorem chunkCount_lt (len size j : Nat) (hs : 1 ≤ size) :
    j < chunkCount len size ↔ j * size < len := by
  unfold chunkCount
  rw [Nat.lt_iff_add_one_le, Nat.le_div_iff_mul_le (by omega), Nat.add_mul]
  omega

theorem chunkCount_le_len (len size : Nat) (hs : 1 ≤ size) : chunkCount len size ≤ len := by
  by_contra h
  have h1 : len < chunkCount len size := by omega
  have h2 := (chunkCount_lt len size len hs).1 h1
  have : len * 1 ≤ len * size := Nat.mul_le_mul_left _ hs
  omega

theorem SplitHexString_eq (s : GoString) (size : Nat) (hs : 1 ≤ size) :
    SplitHexString s (size : Int) = some (sliceList s size (chunkCount s.length size)) := by
  unfold SplitHexString
  have h := splitLoop_spec s size (chunkCount s.length size)
    (fun j hj => (chunkCount_lt _ _ _ hs).1 hj)
    (by
      have := (chunkCount_lt s.length size (chunkCount s.length size) hs)
      by_contra hc
      have := this.2 (by omega)
      omega)
    s.length 0 (Nat.zero_le _) (by simpa using chunkCount_le_len s.length size hs)
  simpa [sliceList] using h

theorem sliceList_length (s : GoString) (size k : Nat) : (sliceList s size k).length = k := by
  simp [sliceList]

theorem chunkCount_mul_ge (len size : Nat) (hs : 1 ≤ size) :
    len ≤ chunkCount len size * size := by
  by_contra hc
  have := (chunkCount_lt len size (chunkCount len size) hs).2 (by omega)
  omega

theorem chunkCount_eq_ceil (len size : Nat) (hs : 1 ≤ size) :
    ((chunkCount len size : Nat) : Int) = ⌈((len : ℚ) / (size : ℚ))⌉ := by
  symm
  rw [Int.ceil_eq_iff]
  have hpos : (0 : ℚ) < (size : ℚ) := by exact_mod_cast hs
  have hge := chunkCount_mul_ge len size hs
  constructor
  · rw [lt_div_iff₀ hpos]
    rcases Nat.eq_zero_or_pos (chunkCount len size) with h0 | h0
    · rw [h0]
      have : (0 : ℚ) ≤ (len : ℚ) := Nat.cast_nonneg _
      push_cast
      nlinarith
    · have h1 := (chunkCount_lt len size (chunkCount len size - 1) hs).1 (by omega)
      have h2 : (((chunkCount len size - 1) * size : Nat) : ℚ) < (len : ℚ) := by exact_mod_cast h1
      have h3 : ((chunkCount len size - 1 : Nat) : ℚ) = (chunkCount len size : ℚ) - 1 := by
        rw [Nat.cast_sub h0]; simp
      push_cast at h2 ⊢
      rw [h3] at h2
      exact h2
  · rw [div_le_iff₀ hpos]
    exact_mod_cast hge

/-- C7: for every string `s` and every chunk size `size ≥ 1`, `SplitHexString`
returns, and returns exactly `ceil(len(s) / size)` chunks; none for the empty
string. -/
theorem SplitHexString_length (s : GoString) (size : Int) (hsize : 1 ≤ size) :
    ∃ chunks, SplitHexString s size = some chunks ∧
      (chunks.length : Int) = ⌈((s.length : ℚ) / (size : ℚ))⌉ ∧
      (s = [] → chunks = []) := by
  obtain ⟨n, rfl⟩ : ∃ n : Nat, size = (n : Int) := ⟨size.toNat, by omega⟩
  have hn : 1 ≤ n := by omega
  refine ⟨_, SplitHexString_eq s n hn, ?_, ?_⟩
  · rw [sliceList_length]
    simpa using chunkCount_eq_ceil s.length n hn
  · intro hs
    subst hs
    have : chunkCount 0 n = 0 := by
      unfold chunkCount
      exact Nat.div_eq_of_lt (by omega)
    simp [sliceList, this]

/-- Instance of C7: the ten-byte string `0123456789` cut by 4 gives 3 chunks. -/
theorem SplitHexString_length_witness :
    (1 : Int) ≤ 4 ∧
    ∃ chunks, SplitHexString (str "0123456789") 4 = some chunks ∧
      (chunks.length : Int) = ⌈(((str "0123456789").length : ℚ) / ((4 : Int) : ℚ))⌉ ∧
      (str "0123456789" = [] → chunks = []) :=
  ⟨by decide, SplitHexString_length (str "0123456789") 4 (by decide)⟩

/-- C8: `CalculateOptimalChunkSize` is the nominal size of the length band capped at
`MaxPayloadLength - 84 = 1916`; it never exceeds 1916 and does not decrease when
the data gets longer. -/
theorem CalculateOptimalChunkSize_bands (data : GoString) :
    CalculateOptimalChunkSize data = min (nominalBand data.length) (MaxPayloadLength - 84) ∧
    MaxPayloadLength - 84 = 1916 ∧
    CalculateOptimalChunkSize data ≤ 1916 ∧
    ∀ longer : GoString, data.length ≤ longer.length →
      CalculateOptimalChunkSize data ≤ CalculateOptimalChunkSize longer := by
  have key : ∀ d : GoString,
      CalculateOptimalChunkSize d = min (nominalBand d.length) (MaxPayloadLength - 84) := by
    intro d
    simp only [CalculateOptimalChunkSize, nominalBand, MaxPayloadLength, pathOverhead, Min]
    split_ifs <;> first | rfl | omega
  have mono : ∀ a b : Nat, a ≤ b → nominalBand a ≤ nominalBand b := by
    intro a b hab
    simp only [nominalBand]
    split_ifs <;> omega
  refine ⟨key data, by decide, ?_, ?_⟩
  · rw [key]
    exact le_trans (min_le_right _ _) (by decide)
  · intro longer h
    rw [key, key]
    exact min_le_min (mono _ _ h) le_rfl

/-! ## Hex encoding -/

set_option maxRecDepth 100000 in
theorem fromHexChar_hextable (v : Byte) :
    fromHexChar (hextable.getD (v.val / 16) 0) = some (v.val / 16) ∧
    fromHexChar (hextable.getD (v.val % 16) 0) = some (v.val % 16) := by
  revert v
  decide

theorem DecodeString_EncodeToString (fmtU : Byte → GoString) (bytes : List Byte) :
    DecodeString fmtU (EncodeToString bytes) = .ok bytes := by
  induction bytes with
  | nil => rfl
  | cons v rest ih =>
    have h := fromHexChar_hextable v
    have e : EncodeToString (v :: rest) =
        hextable.getD (v.val / 16) 0 :: hextable.getD (v.val % 16) 0 :: EncodeToString rest := by
      simp [EncodeToString]
    rw [e]
    simp only [DecodeString, h.1, h.2]
    rw [EncodeToString] at ih
    simp only [EncodeToString, ih]
    congr 2
    apply Fin.ext
    simp only
    have := v.isLt
    omega

theorem EncodeToString_length (bytes : List Byte) :
    (EncodeToString bytes).length = 2 * bytes.length := by
  induction bytes with
  | nil => rfl
  | cons v rest ih =>
    have e : EncodeToString (v :: rest) =
        hextable.getD (v.val / 16) 0 :: hextable.getD (v.val % 16) 0 :: EncodeToString rest := by
      simp [EncodeToString]
    rw [e]
    simp only [List.length_cons, ih]
    omega

theorem calculateMD5_length (env : Env) (data : GoString) :
    (calculateMD5 env data).length = 32 := by
  unfold calculateMD5
  rw [EncodeToString_length, (env.md5Sum data).property]

/-- C4: when AES-GCM opens what it sealed (the contract of the library for a
32-byte key and a 12-byte nonce), then for every file content `b`, key string `k`
and nonce, `OriginalEncryptFile` returns a hex string that `DecryptAES256`, with
the server's key set to `k`, decrypts to exactly `b`. -/
theorem DecryptAES256_OriginalEncryptFile (env : Env) (b : List Byte) (k : GoString)
    (nonce : {n : List Byte // n.length = gcmNonceSize})
    (hkey : env.encryptionKey = k)
    (haead : ∀ key iv plaintext : List Byte, key.length = 32 → iv.length = 12 →
      env.gcmOpen key iv (env.gcmSeal key iv plaintext) = some plaintext) :
    ∃ encryptedHex, OriginalEncryptFile env (.ok b) k (.ok nonce) = .ok encryptedHex ∧
      DecryptAES256 env encryptedHex = .ok b := by
  refine ⟨_, rfl, ?_⟩
  have hn : nonce.val.length = 12 := nonce.property
  simp only [DecryptAES256, DecodeString_EncodeToString, hkey]
  rw [if_neg (by simp [gcmNonceSize])]
  simp only [gcmNonceSize] at hn ⊢
  rw [List.take_left' hn, List.drop_left' hn,
    haead _ _ _ (env.sha256Sum k).property hn]

/-- Instance of C4: the two bytes `hi` under the key `k` in `demoEnv`. -/
theorem DecryptAES256_OriginalEncryptFile_witness :
    ∃ encryptedHex,
      OriginalEncryptFile demoEnv (.ok (str "hi")) (str "k")
        (.ok ⟨List.replicate 12 7, by decide⟩) = .ok encryptedHex ∧
      DecryptAES256 demoEnv encryptedHex = .ok (str "hi") :=
  DecryptAES256_OriginalEncryptFile demoEnv (str "hi") (str "k") ⟨List.replicate 12 7, by decide⟩
    rfl (fun _ _ _ _ _ => rfl)

/-! ## Chunk requests -/

/-- C2: a chunk request whose declared checksum is not the MD5 of its payload is
rejected with status 400 and the store is left exactly as it was; so the chunk
count of every transfer and what is stored at every index are unchanged. Nothing
is logged by the verbose block, which is not reached. -/
theorem handleChunkRequest_tampered (env : Env) (now : Nat → Int) (store : Store)
    (action id index declaredChecksum payload : GoString)
    (h : calculateMD5 env payload ≠ declaredChecksum) :
    ∃ body,
      handleChunkRequest env now [action, id, index, declaredChecksum, payload] store
        = ((Outcome.response 400 body, store), none) ∧
      Outcome.response 400 body ≠ respondOK := by
  simp only [handleChunkRequest]
  cases Atoi index with
  | none => exact ⟨_, rfl, by simp [respondOK]⟩
  | some chunkIndex =>
    simp only [ne_eq, h, not_false_eq_true, if_true]
    exact ⟨_, rfl, by simp [respondOK, httpError]⟩

/-- Instance of C2, on `demoStore`, where transfer `t` holds one chunk: the request
for index 1 with payload `cd` is accepted and stored under the right checksum, and
rejected, the store untouched, under the checksum `x`. -/
theorem handleChunkRequest_tampered_witness :
    calculateMD5 demoEnv (str "cd") ≠ str "x" ∧
    (demoStore (str "t")).map (fun t => t.Chunks) = some [(0, str "ab")] ∧
    ((handleChunkRequest demoEnv demoClock
        [str "chunk", str "t", str "1", demoSum, str "cd"] demoStore).1.2 (str "t")).map
      (fun t => t.Chunks) = some [(1, str "cd"), (0, str "ab")] ∧
    ∃ body,
      handleChunkRequest demoEnv demoClock
          [str "chunk", str "t", str "1", str "x", str "cd"] demoStore
        = ((Outcome.response 400 body, demoStore), none) ∧
      Outcome.response 400 body ≠ respondOK :=
  ⟨by decide, by decide, by decide,
   handleChunkRequest_tampered demoEnv demoClock demoStore (str "chunk") (str "t") (str "1")
     (str "x") (str "cd") (by decide)⟩

/-! ## Eviction -/

theorem timeSub_gt_iff (now u : Int) :
    timeSub now u > 30 * Minute ↔ now - u > 1800000000000 := by
  unfold timeSub Minute
  simp only [max_def, min_def]
  split_ifs <;> omega

/-- C10: after `ScheduleCleanup` at time `now` the store holds exactly the transfers
whose `LastUpdated` is at most 30 minutes before `now`, each as it was; a
transfer idle for longer is gone, whatever its `Checksum`. -/
theorem ScheduleCleanup_exact (now : Int) (store : Store) (id : GoString) :
    (∀ t, ScheduleCleanup now store id = some t ↔
      (store id = some t ∧ now - t.LastUpdated ≤ 30 * (60 * 1000000000))) ∧
    (ScheduleCleanup now store id = none ↔
      (store id = none ∨
        ∃ t, store id = some t ∧ now - t.LastUpdated > 30 * (60 * 1000000000))) := by
  unfold ScheduleCleanup
  cases hs : store id with
  | none => simp
  | some t0 =>
    simp only [timeSub_gt_iff]
    by_cases hgt : now - t0.LastUpdated > 1800000000000
    · simp only [hgt, if_true]
      constructor
      · intro t
        constructor
        · intro h; cases h
        · rintro ⟨h1, h2⟩
          cases h1
          omega
      · constructor
        · intro _
          exact Or.inr ⟨t0, rfl, by omega⟩
        · intro _; trivial
    · simp only [hgt, if_false]
      constructor
      · intro t
        constructor
        · intro h
          cases h
          exact ⟨rfl, by omega⟩
        · rintro ⟨h1, _⟩
          exact h1
      · constructor
        · intro h; cases h
        · rintro (h | ⟨t, ht, hlt⟩)
          · cases h
          · cases ht
            omega

/-! ## Reassembly -/

theorem foldl_concat (m : ChunkMap) (l : List Nat) (acc : GoString) :
    l.foldl (fun (builder : GoString) (i : Nat) =>
        match chunkGet m (i : Int) with
        | some chunk => builder ++ chunk
        | none => builder) acc
      = acc ++ l.flatMap (fun i => (chunkGet m (i : Int)).getD []) := by
  induction l generalizing acc with
  | nil => simp
  | cons i rest ih =>
    simp only [List.foldl_cons, List.flatMap_cons]
    rw [ih]
    cases chunkGet m (i : Int) <;> simp

theorem ConcatenateChunks_eq (env : Env) (t : FileTransfer)
    (h : 0 ≤ t.FileSize ∧ t.FileSize ≤ env.maxAlloc) :
    ConcatenateChunks env t = some (orderedConcat t.Chunks t.TotalChunks) := by
  unfold ConcatenateChunks orderedConcat
  rw [if_neg (by omega), foldl_concat]
  simp

theorem ConcatenateChunks_none (env : Env) (t : FileTransfer)
    (h : t.FileSize < 0 ∨ t.FileSize > env.maxAlloc) :
    ConcatenateChunks env t = none := by
  unfold ConcatenateChunks
  rw [if_pos h]

theorem flatMap_slices (s : GoString) (size k : Nat) :
    (List.range k).flatMap (fun j => (s.drop (j * size)).take size) = s.take (k * size) := by
  induction k with
  | zero => simp
  | succ k ih =>
    rw [List.range_succ, List.flatMap_append, ih]
    simp only [List.flatMap_cons, List.flatMap_nil, List.append_nil]
    rw [Nat.add_mul, Nat.one_mul, List.take_add]

theorem sliceList_get (s : GoString) (size k i : Nat) (h : i < (sliceList s size k).length) :
    (sliceList s size k).get ⟨i, h⟩ = (s.drop (i * size)).take size := by
  simp [sliceList]

/-- The reassembly of the chunks of a split: with a declared file size that
`builder.Grow` accepts, `ConcatenateChunks` gives back the string that was split. -/
theorem ConcatenateChunks_SplitHexString (env : Env) (s : GoString) (size : Int)
    (hsize : 1 ≤ size) (t : FileTransfer) (chunks : List GoString)
    (hsplit : SplitHexString s size = some chunks)
    (htotal : t.TotalChunks = (chunks.length : Int))
    (hheld : ∀ (i : Nat) (h : i < chunks.length),
      chunkGet t.Chunks (i : Int) = some (chunks.get ⟨i, h⟩))
    (hfile : 0 ≤ t.FileSize ∧ t.FileSize ≤ env.maxAlloc) :
    ConcatenateChunks env t = some s := by
  obtain ⟨n, rfl⟩ : ∃ n : Nat, size = (n : Int) := ⟨size.toNat, by omega⟩
  have hn : 1 ≤ n := by omega
  rw [SplitHexString_eq s n hn] at hsplit
  cases hsplit
  rw [ConcatenateChunks_eq env t hfile, htotal]
  unfold orderedConcat
  simp only [Int.toNat_ofNat, sliceList_length, Option.some.injEq]
  have e : (List.range (chunkCount s.length n)).flatMap
        (fun i => (chunkGet t.Chunks (i : Int)).getD [])
      = (List.range (chunkCount s.length n)).flatMap
        (fun j => (s.drop (j * n)).take n) := by
    apply List.flatMap_congr
    intro i hi
    have hi2 : i < (sliceList s n (chunkCount s.length n)).length := by
      rw [sliceList_length]; exact List.mem_range.1 hi
    rw [hheld i hi2, sliceList_get]
    rfl
  rw [e, flatMap_slices]
  exact List.take_of_length_le (chunkCount_mul_ge s.length n hn)

/-! ## What each handler does to the store -/

theorem handleInitRequest_cases (now : Nat → Int) (comps : List GoString) (store : Store) :
    (∃ body, handleInitRequest now comps store = (Outcome.response 400 body, store)) ∨
    (∃ action id c2 c3 filename totalChunks fileSize,
      comps = [action, id, c2, c3, filename] ∧ Atoi c2 = some totalChunks ∧
      Atoi c3 = some fileSize ∧
      handleInitRequest now comps store =
        (respondOK, Function.update store id (some
          { ID := id, Filename := filename, TotalChunks := totalChunks, FileSize := fileSize,
            Chunks := [], Created := now 0, LastUpdated := now 1, Checksum := [] }))) := by
  unfold handleInitRequest
  split
  · rename_i action id c2 c3 filename
    cases h2 : Atoi c2 with
    | none => exact Or.inl ⟨_, rfl⟩
    | some totalChunks =>
      cases h3 : Atoi c3 with
      | none => exact Or.inl ⟨_, rfl⟩
      | some fileSize =>
        exact Or.inr ⟨action, id, c2, c3, filename, totalChunks, fileSize, rfl, h2, h3, rfl⟩
  · exact Or.inl ⟨_, rfl⟩

theorem handleChunkRequest_cases (env : Env) (now : Nat → Int) (comps : List GoString)
    (store : Store) :
    (∃ status body, (status = 400 ∨ status = 404) ∧
      (handleChunkRequest env now comps store).1 = (Outcome.response status body, store)) ∨
    (∃ action id index payload k t,
      comps = [action, id, index, calculateMD5 env payload, payload] ∧ Atoi index = some k ∧
      store id = some t ∧
      (handleChunkRequest env now comps store).1 =
        (respondOK, Function.update store id (some
          { t with Chunks := chunkSet t.Chunks k payload, LastUpdated := now 0 }))) := by
  unfold handleChunkRequest
  split
  · rename_i action id index declared payload
    cases h2 : Atoi index with
    | none => exact Or.inl ⟨400, _, Or.inl rfl, rfl⟩
    | some k =>
      by_cases hsum : calculateMD5 env payload = declared
      · subst hsum
        cases hs : store id with
        | none =>
          simp only [ne_eq, not_true_eq_false, if_false]
          exact Or.inl ⟨404, _, Or.inr rfl, rfl⟩
        | some t =>
          simp only [ne_eq, not_true_eq_false, if_false]
          exact Or.inr ⟨action, id, index, payload, k, t, rfl, h2, hs, rfl⟩
      · simp only [ne_eq, hsum, not_false_eq_true, if_true]
        exact Or.inl ⟨400, _, Or.inl rfl, rfl⟩
  · exact Or.inl ⟨400, _, Or.inl rfl, rfl⟩

theorem handleCompleteRequest_cases (env : Env) (comps : List GoString) (store : Store) :
    (∃ status body, (status = 400 ∨ status = 404) ∧
      handleCompleteRequest env comps store = (Outcome.response status body, store)) ∨
    handleCompleteRequest env comps store = (Outcome.panic, store) ∨
    (∃ action id declared t,
      comps = [action, id, declared] ∧ store id = some t ∧
      (handleCompleteRequest env comps store).2 =
        Function.update store id (some { t with Checksum := declared }) ∧
      ((handleCompleteRequest env comps store).1 = Outcome.panic ∨
       (∃ body, (handleCompleteRequest env comps store).1 = Outcome.response 500 body) ∨
       (handleCompleteRequest env comps store).1 = respondOK)) := by
  unfold handleCompleteRequest
  split
  · rename_i action id declared
    cases hs : store id with
    | none => exact Or.inl ⟨404, _, Or.inr rfl, rfl⟩
    | some t =>
      simp only
      by_cases hv : env.verboseMode = true ∧
          ((missingChunks t).length : Int) > env.maxListing
      · rw [if_pos hv]
        exact Or.inr (Or.inl rfl)
      · rw [if_neg hv]
        by_cases hlen : chunkLen t.Chunks = t.TotalChunks
        · simp only [ne_eq, hlen, not_true_eq_false, if_false]
          cases hc : ConcatenateChunks env t with
          | none => exact Or.inr (Or.inl rfl)
          | some data =>
            simp only
            by_cases hsum : calculateMD5 env data = declared
            · simp only [hsum, not_true_eq_false, if_false]
              refine Or.inr (Or.inr ⟨action, id, declared, t, rfl, hs, ?_, ?_⟩)
              · split <;> rfl
              · split
                · exact Or.inl rfl
                · exact Or.inr (Or.inl ⟨_, rfl⟩)
                · exact Or.inr (Or.inr rfl)
            · simp only [hsum, not_false_eq_true, if_true]
              exact Or.inl ⟨400, _, Or.inl rfl, rfl⟩
        · simp only [ne_eq, hlen, not_false_eq_true, if_true]
          exact Or.inl ⟨400, _, Or.inl rfl, rfl⟩
  · exact Or.inl ⟨400, _, Or.inl rfl, rfl⟩

theorem HandleRequest_cases (env : Env) (now : Nat → Int) (urlPath : GoString) (store : Store) :
    HandleRequest env now urlPath store =
        (httpError (str "Invalid request format") 400, store) ∨
    HandleRequest env now urlPath store =
        handleInitRequest now (stringsSplit (stringsTrim urlPath)) store ∨
    ((stringsSplit (stringsTrim urlPath)).headD [] = str "chunk" ∧
      HandleRequest env now urlPath store =
        (handleChunkRequest env now (stringsSplit (stringsTrim urlPath)) store).1) ∨
    ((stringsSplit (stringsTrim urlPath)).headD [] = str "complete" ∧
      HandleRequest env now urlPath store =
        handleCompleteRequest env (stringsSplit (stringsTrim urlPath)) store) ∨
    HandleRequest env now urlPath store = (httpError (str "Unknown action") 400, store) := by
  unfold HandleRequest
  simp only
  split_ifs with h1 h2 h3 h4
  · exact Or.inl rfl
  · exact Or.inr (Or.inl rfl)
  · exact Or.inr (Or.inr (Or.inl ⟨h3, rfl⟩))
  · exact Or.inr (Or.inr (Or.inr (Or.inl ⟨h4, rfl⟩)))
  · exact Or.inr (Or.inr (Or.inr (Or.inr rfl)))

/-! ## Error responses and the store -/

/-- C6, as stated, fails: the complete request `demoComplete` finds its one chunk
and a matching checksum, decryption then fails (`ab` is too short a ciphertext),
the answer is status 500, and the store is no longer the store before: the
transfer's `Checksum` has been set. -/
theorem HandleRequest_error_store_changed :
    (HandleRequest demoEnv demoClock demoComplete demoStore).1 =
      Outcome.response 500
        (str "Error processing transfer: error decrypting data: ciphertext too short\n") ∧
    (HandleRequest demoEnv demoClock demoComplete demoStore).2 ≠ demoStore ∧
    (demoStore (str "t")).map (fun t => t.Checksum) = some [] ∧
    ((HandleRequest demoEnv demoClock demoComplete demoStore).2 (str "t")).map
      (fun t => t.Checksum) = some demoSum := by
  refine ⟨by decide, ?_, by decide, by decide⟩
  intro h
  exact absurd (congrFun h (str "t")) (by decide)

/-- C6, amended: when `HandleRequest` answers with an error, then either the status
is 400 or 404 and the store is the store before, or the status is 500, the request
is a complete request `complete/id/declared` for a transfer `id` of the store (its
checksums matched and processing failed), and the store differs from the store
before only in the `Checksum` field of that transfer, which is now `declared`; its
chunk map and every other transfer are unchanged. -/
theorem HandleRequest_error_store (env : Env) (now : Nat → Int) (urlPath : GoString)
    (store : Store) (status : Nat) (body : GoString)
    (hresp : (HandleRequest env now urlPath store).1 = Outcome.response status body)
    (herr : Outcome.response status body ≠ respondOK) :
    ((status = 400 ∨ status = 404) ∧ (HandleRequest env now urlPath store).2 = store) ∨
    (status = 500 ∧ ∃ id declared t,
      requestFields urlPath = [str "complete", id, declared] ∧ store id = some t ∧
      (HandleRequest env now urlPath store).2 =
        Function.update store id (some { t with Checksum := declared })) := by
  rcases HandleRequest_cases env now urlPath store with h | h | ⟨_, h⟩ | ⟨hact, h⟩ | h
  · rw [h] at hresp ⊢
    simp only [httpError, Outcome.response.injEq] at hresp
    exact Or.inl ⟨Or.inl hresp.1.symm, rfl⟩
  · rw [h] at hresp ⊢
    rcases handleInitRequest_cases now (stringsSplit (stringsTrim urlPath)) store with
      ⟨b, hb⟩ | ⟨_, _, _, _, _, _, _, _, _, _, hb⟩
    · rw [hb] at hresp ⊢
      simp only [Outcome.response.injEq] at hresp
      exact Or.inl ⟨Or.inl hresp.1.symm, rfl⟩
    · rw [hb] at hresp
      exact absurd hresp.symm herr
  · rw [h] at hresp ⊢
    rcases handleChunkRequest_cases env now (stringsSplit (stringsTrim urlPath)) store with
      ⟨st, b, hst, hb⟩ | ⟨_, _, _, _, _, _, _, _, _, hb⟩
    · rw [hb] at hresp ⊢
      simp only [Outcome.response.injEq] at hresp
      rw [← hresp.1]
      exact Or.inl ⟨hst, rfl⟩
    · rw [hb] at hresp
      exact absurd hresp.symm herr
  · rw [h] at hresp ⊢
    rcases handleCompleteRequest_cases env (stringsSplit (stringsTrim urlPath)) store with
      ⟨st, b, hst, hb⟩ | hb | ⟨action, id, declared, t, hc, hs, h2, h1⟩
    · rw [hb] at hresp ⊢
      simp only [Outcome.response.injEq] at hresp
      rw [← hresp.1]
      exact Or.inl ⟨hst, rfl⟩
    · rw [hb] at hresp
      cases hresp
    · rcases h1 with h1 | ⟨b, h1⟩ | h1
      · rw [h1] at hresp
        cases hresp
      · rw [h1] at hresp
        simp only [Outcome.response.injEq] at hresp
        refine Or.inr ⟨hresp.1.symm, id, declared, t, ?_, hs, h2⟩
        rw [hc] at hact
        simp only [List.headD_cons] at hact
        rw [requestFields, hc, hact]
      · rw [h1] at hresp
        exact absurd hresp.symm herr
  · rw [h] at hresp ⊢
    simp only [httpError, Outcome.response.injEq] at hresp
    exact Or.inl ⟨Or.inl hresp.1.symm, rfl⟩

/-- Instance of amended C6: the failing completion `demoComplete` on `demoStore`. -/
theorem HandleRequest_error_store_witness :
    (HandleRequest demoEnv demoClock demoComplete demoStore).1 =
      Outcome.response 500
        (str "Error processing transfer: error decrypting data: ciphertext too short\n") ∧
    requestFields demoComplete = [str "complete", str "t", demoSum] ∧
    (((500 : Nat) = 400 ∨ (500 : Nat) = 404) ∧
        (HandleRequest demoEnv demoClock demoComplete demoStore).2 = demoStore ∨
     ((500 : Nat) = 500 ∧ ∃ id declared t,
      requestFields demoComplete = [str "complete", id, declared] ∧
      demoStore id = some t ∧
      (HandleRequest demoEnv demoClock demoComplete demoStore).2 =
        Function.update demoStore id (some { t with Checksum := declared }))) :=
  ⟨by decide, by decide,
   HandleRequest_error_store demoEnv demoClock demoComplete demoStore 500
     (str "Error processing transfer: error decrypting data: ciphertext too short\n")
     (by decide) (by decide)⟩

/-! ## Chunk maps -/

theorem lookup_filter_ne (m : ChunkMap) (j k : Int) (h : j ≠ k) :
    List.lookup j (m.filter (fun p => p.1 != k)) = List.lookup j m := by
  induction m with
  | nil => rfl
  | cons p rest ih =>
    obtain ⟨a, b⟩ := p
    by_cases hak : a = k
    · subst hak
      have hja : (j == a) = false := by simpa using h
      simp [List.filter_cons, List.lookup_cons, hja, ih]
    · have hne : (a != k) = true := by simpa using hak
      simp only [List.filter_cons, hne, if_true, List.lookup_cons, ih]

theorem chunkGet_chunkSet (m : ChunkMap) (k : Int) (v : GoString) (j : Int) :
    chunkGet (chunkSet m k v) j = if j = k then some v else chunkGet m j := by
  unfold chunkGet chunkSet
  by_cases h : j = k
  · subst h
    simp [List.lookup_cons]
  · have hjk : (j == k) = false := by simpa using h
    rw [if_neg h, List.lookup_cons, hjk]
    exact lookup_filter_ne m j k h

/-! ## Chunk indices -/

/-- C5, as stated, fails: after the init request `demoInit` (one chunk expected) and
the chunk request `demoChunk7`, the chunk map of transfer `t` has the key 7, which
is not in `[0, 1)`. -/
theorem run_key_out_of_range :
    ((run demoEnv [.request demoClock demoInit, .request demoClock demoChunk7]) (str "t")).map
        (fun t => (t.TotalChunks, chunkGet t.Chunks 7)) = some (1, some (str "ab")) ∧
    ¬ KeysInRange (run demoEnv [.request demoClock demoInit, .request demoClock demoChunk7]) := by
  refine ⟨by decide, ?_⟩
  intro h
  have h1 := h (str "t")
    { ID := str "t", Filename := str "f", TotalChunks := 1, FileSize := 2,
      Chunks := [(7, str "ab")], Created := 0, LastUpdated := 0, Checksum := [] }
    (by decide) 7 (by decide)
  exact absurd h1.2 (by decide)

theorem KeysInRange_update (store : Store) (id : GoString) (t : FileTransfer)
    (h : KeysInRange store) (ht : KeysWithin t.Chunks t.TotalChunks) :
    KeysInRange (Function.update store id (some t)) := by
  intro id1 t1 h1
  by_cases e : id1 = id
  · subst e
    rw [Function.update_same] at h1
    cases h1
    exact ht
  · rw [Function.update_noteq e] at h1
    exact h id1 t1 h1

theorem KeysInRange_step (env : Env) (store : Store) (e : Event)
    (h : KeysInRange store)
    (hin : ∀ now urlPath, e = .request now urlPath →
      chunkIndexWithin env store urlPath = true) :
    KeysInRange (step env store e) := by
  cases e with
  | sweep now =>
    intro id t ht
    simp only [step, ScheduleCleanup] at ht
    cases hs : store id with
    | none => rw [hs] at ht; cases ht
    | some t0 =>
      rw [hs] at ht
      simp only at ht
      split_ifs at ht
      cases ht
      exact h id _ hs
  | request now urlPath =>
    have hguard := hin now urlPath rfl
    simp only [step]
    rcases HandleRequest_cases env now urlPath store with
      hr | hr | ⟨hact, hr⟩ | ⟨_, hr⟩ | hr
    · rw [hr]; exact h
    · rw [hr]
      rcases handleInitRequest_cases now (stringsSplit (stringsTrim urlPath)) store with
        ⟨b, hb⟩ | ⟨_, id, _, _, _, _, _, _, _, _, hb⟩
      · rw [hb]; exact h
      · rw [hb]
        apply KeysInRange_update _ _ _ h
        intro k hk
        exact absurd rfl hk
    · rw [hr]
      rcases handleChunkRequest_cases env now (stringsSplit (stringsTrim urlPath)) store with
        ⟨st, b, _, hb⟩ | ⟨action, id, index, payload, k, t, hc, hk, hs, hb⟩
      · rw [hb]; exact h
      · rw [hb]
        apply KeysInRange_update _ _ _ h
        have hrange : 0 ≤ k ∧ k < t.TotalChunks := by
          rw [hc] at hact
          simp only [List.headD_cons] at hact
          simpa [chunkIndexWithin, hc, hact, hk, hs] using hguard
        intro j hj
        simp only [chunkGet_chunkSet] at hj
        by_cases e : j = k
        · subst e; exact hrange
        · rw [if_neg e] at hj
          exact h id t hs j hj
    · rw [hr]
      rcases handleCompleteRequest_cases env (stringsSplit (stringsTrim urlPath)) store with
        ⟨st, b, _, hb⟩ | hb | ⟨_, id, declared, t, _, hs, h2, _⟩
      · rw [hb]; exact h
      · rw [hb]; exact h
      · rw [h2]
        exact KeysInRange_update _ _ _ h (h id t hs)
    · rw [hr]; exact h

theorem KeysInRange_foldl (env : Env) (events : List Event) :
    ∀ store, KeysInRange store → indicesWithin env store events = true →
      KeysInRange (events.foldl (step env) store) := by
  induction events with
  | nil => intro store h _; exact h
  | cons e rest ih =>
    intro store h hin
    simp only [List.foldl_cons]
    cases e with
    | sweep now =>
      simp only [indicesWithin] at hin
      exact ih _ (KeysInRange_step env store _ h (fun _ _ he => by cases he)) hin
    | request now urlPath =>
      simp only [indicesWithin, Bool.and_eq_true] at hin
      refine ih _ (KeysInRange_step env store _ h ?_) hin.2
      intro n u he
      cases he
      exact hin.1

/-- C5, amended: in every store state reached from the empty store by init, chunk
and complete requests and sweeps, in which every accepted chunk request carried an
index within `[0, TotalChunks)` of the transfer it addressed, every key of every
transfer's chunk map lies in `[0, TotalChunks)` of that transfer. -/
theorem run_keys_in_range (env : Env) (events : List Event)
    (hin : indicesWithin env emptyStore events = true) :
    KeysInRange (run env events) := by
  unfold run
  refine KeysInRange_foldl env events emptyStore ?_ hin
  intro id t ht
  cases ht

/-- Instance of amended C5: the run `demoInit`, `demoChunk`, `demoComplete`, then a
sweep. -/
theorem run_keys_in_range_witness :
    indicesWithin demoEnv emptyStore
      [.request demoClock demoInit, .request demoClock demoChunk,
       .request demoClock demoComplete, .sweep 5] = true ∧
    KeysInRange (run demoEnv
      [.request demoClock demoInit, .request demoClock demoChunk,
       .request demoClock demoComplete, .sweep 5]) :=
  ⟨by decide, run_keys_in_range demoEnv _ (by decide)⟩

/-! ## Completion -/

theorem chunkGet_ne_none_iff (m : ChunkMap) (k : Int) :
    chunkGet m k ≠ none ↔ k ∈ m.map Prod.fst := by
  unfold chunkGet
  induction m with
  | nil => simp
  | cons p rest ih =>
    obtain ⟨a, b⟩ := p
    by_cases h : k = a
    · subst h; simp [List.lookup_cons]
    · have hka : (k == a) = false := by simpa using h
      simp only [List.lookup_cons, hka, List.map_cons, List.mem_cons, h, false_or]
      exact ih

/-- When every key lies in `[0, total)`, the count check of `handleCompleteRequest`
passes exactly when every index in `[0, total)` is held. -/
theorem chunkLen_eq_iff (m : ChunkMap) (total : Int) (hk : KeysWithin m total) :
    chunkLen m = total ↔ 0 ≤ total ∧ HoldsAll m total := by
  have hcard : chunkLen m = ((m.map Prod.fst).toFinset.card : Int) := by
    unfold chunkLen
    rw [List.card_toFinset]
  have hsub : (m.map Prod.fst).toFinset ⊆ Finset.Ico 0 total := by
    intro k hk1
    rw [List.mem_toFinset] at hk1
    rw [Finset.mem_Ico]
    exact hk k ((chunkGet_ne_none_iff m k).2 hk1)
  have hIco : (Finset.Ico (0 : Int) total).card = total.toNat := by simp
  constructor
  · intro h
    have h0 : 0 ≤ total := by
      rw [← h, hcard]
      exact Int.natCast_nonneg _
    refine ⟨h0, ?_⟩
    have heq : (m.map Prod.fst).toFinset = Finset.Ico 0 total :=
      Finset.eq_of_subset_of_card_le hsub (by rw [hIco]; omega)
    intro i hi0 hi1
    rw [chunkGet_ne_none_iff, ← List.mem_toFinset, heq, Finset.mem_Ico]
    exact ⟨hi0, hi1⟩
  · rintro ⟨h0, hall⟩
    have hsup : Finset.Ico 0 total ⊆ (m.map Prod.fst).toFinset := by
      intro i hi
      rw [Finset.mem_Ico] at hi
      rw [List.mem_toFinset, ← chunkGet_ne_none_iff]
      exact hall i hi.1 hi.2
    rw [hcard, Finset.Subset.antisymm hsub hsup, hIco]
    omega

theorem orderedConcat_of_nonpos (m : ChunkMap) (total : Int) (h : total ≤ 0) :
    orderedConcat m total = [] := by
  unfold orderedConcat
  have : total.toNat = 0 := by omega
  rw [this]
  rfl

theorem DecryptAES256_nil (env : Env) :
    DecryptAES256 env [] = .error (str "ciphertext too short") := by
  simp [DecryptAES256, DecodeString, gcmNonceSize]

theorem handleCompleteRequest_eval (env : Env) (store : Store)
    (action id declared : GoString) (t : FileTransfer) (hs : store id = some t)
    (hfit : allocationsFit env t) :
    handleCompleteRequest env [action, id, declared] store =
      if chunkLen t.Chunks ≠ t.TotalChunks then
        (httpError (str "Missing chunks: " ++ formatInt (chunkLen t.Chunks) ++ str "/" ++
          formatInt t.TotalChunks ++ str " received") 400, store)
      else if calculateMD5 env (orderedConcat t.Chunks t.TotalChunks) ≠ declared then
        (httpError (str "Full data checksum verification failed") 400, store)
      else
        match DecryptAES256 env (orderedConcat t.Chunks t.TotalChunks) with
        | .error e =>
          (httpError (str "Error processing transfer: " ++ (str "error decrypting data: " ++ e))
            500, Function.update store id (some { t with Checksum := declared }))
        | .ok plaintext =>
          match env.writeFile (outputPathOf env t) plaintext with
          | some e =>
            (httpError (str "Error processing transfer: " ++ (str "error writing file: " ++ e))
              500, Function.update store id (some { t with Checksum := declared }))
          | none => (respondOK, Function.update store id (some { t with Checksum := declared })) := by
  have hc := ConcatenateChunks_eq env t hfit.1
  have hc1 : ConcatenateChunks env { t with Checksum := declared } =
      some (orderedConcat t.Chunks t.TotalChunks) :=
    ConcatenateChunks_eq env { t with Checksum := declared } hfit.1
  have hv : ¬ (env.verboseMode = true ∧
      ((missingChunks t).length : Int) > env.maxListing) := by
    rintro ⟨h1, h2⟩
    have := hfit.2 h1
    omega
  simp only [handleCompleteRequest, hs, hc]
  rw [if_neg hv]
  split_ifs with h1 h2
  · rfl
  · rfl
  · simp only [ProcessCompletedTransfer, Function.update_same, hc1]
    cases hd : DecryptAES256 env (orderedConcat t.Chunks t.TotalChunks) with
    | error e => rfl
    | ok plaintext =>
      simp only
      have hp : env.filepathJoin (str "received_files")
          (if t.Filename ≠ [] then t.Filename else t.ID ++ str ".bin") = outputPathOf env t := rfl
      rw [hp]
      cases hw : env.writeFile (outputPathOf env t) plaintext with
      | none => rfl
      | some e => rfl

/-- C1, as stated, fails: on `demoStore` the one expected chunk of transfer `t` is held
at index 0 and the MD5 of the concatenation is the declared checksum, yet the
answer is not OK but status 500, because decrypting `ab` fails. -/
theorem handleCompleteRequest_not_as_specified :
    completeAsSpecified demoEnv demoStore (str "t") demoSum ∧
    (handleCompleteRequest demoEnv [str "complete", str "t", demoSum] demoStore).1 =
      Outcome.response 500
        (str "Error processing transfer: error decrypting data: ciphertext too short\n") ∧
    (handleCompleteRequest demoEnv [str "complete", str "t", demoSum] demoStore).1
      ≠ respondOK := by
  refine ⟨⟨_, (by decide : demoStore (str "t") = some
      { ID := str "t", Filename := str "f", TotalChunks := 1, FileSize := 2,
        Chunks := [(0, str "ab")], Created := 0, LastUpdated := 0, Checksum := [] }),
      ?_, by decide⟩, by decide, by decide⟩
  intro i h0 h1
  have hi : i = 0 := by
    have h2 : i < 1 := h1
    omega
  subst hi
  decide

/-- C1, amended: for a complete request `(id, declared)` on a store in which the keys
of the chunk map of transfer `id` all lie in `[0, TotalChunks)` and the
allocations of the request succeed, `handleCompleteRequest` answers OK if and only
if the transfer is in the store, its chunk map holds every index in
`[0, TotalChunks)`, the MD5 of the concatenation of those chunks in ascending index
order is `declared`, and decrypting that concatenation and writing the file both
succeed. In every other case the answer is an error and the transfer, if any,
stays in the store: 404 or 400 with the store unchanged, or 500 with only the
`Checksum` of the transfer set to `declared`. -/
theorem handleCompleteRequest_ok_iff (env : Env) (store : Store)
    (action id declared : GoString)
    (hkeys : ∀ t, store id = some t → KeysWithin t.Chunks t.TotalChunks)
    (hfit : ∀ t, store id = some t → allocationsFit env t) :
    ((handleCompleteRequest env [action, id, declared] store).1 = respondOK ↔
      ∃ t, store id = some t ∧ HoldsAll t.Chunks t.TotalChunks ∧
        calculateMD5 env (orderedConcat t.Chunks t.TotalChunks) = declared ∧
        ∃ plaintext,
          DecryptAES256 env (orderedConcat t.Chunks t.TotalChunks) = .ok plaintext ∧
          env.writeFile (outputPathOf env t) plaintext = none) ∧
    ((handleCompleteRequest env [action, id, declared] store).1 ≠ respondOK →
      (store id = none ∧ ∃ body, handleCompleteRequest env [action, id, declared] store =
        (Outcome.response 404 body, store)) ∨
      (∃ body, handleCompleteRequest env [action, id, declared] store =
        (Outcome.response 400 body, store)) ∨
      (∃ body t, store id = some t ∧
        handleCompleteRequest env [action, id, declared] store =
          (Outcome.response 500 body,
            Function.update store id (some { t with Checksum := declared })))) := by
  constructor
  · cases hs : store id with
    | none =>
      simp [handleCompleteRequest, hs, httpError, respondOK]
    | some t =>
      have hcount := chunkLen_eq_iff t.Chunks t.TotalChunks (hkeys t hs)
      rw [handleCompleteRequest_eval env store action id declared t hs (hfit t hs)]
      split_ifs with h1 h2
      · simp only [httpError, respondOK, Outcome.response.injEq, Option.some.injEq]
        constructor
        · intro h; exact absurd h.1 (by decide)
        · rintro ⟨t1, rfl, hall, _, p, hp, _⟩
          exfalso
          apply h1
          rw [hcount]
          refine ⟨?_, hall⟩
          by_contra hneg
          rw [orderedConcat_of_nonpos _ _ (by omega), DecryptAES256_nil] at hp
          cases hp
      · simp only [httpError, respondOK, Outcome.response.injEq, Option.some.injEq]
        constructor
        · intro h; exact absurd h.1 (by decide)
        · rintro ⟨t1, rfl, _, hsum, _⟩; exact absurd hsum h2
      · simp only [ne_eq, not_not] at h1 h2
        cases hd : DecryptAES256 env (orderedConcat t.Chunks t.TotalChunks) with
        | error e =>
          simp only [httpError, respondOK, Outcome.response.injEq, Option.some.injEq]
          constructor
          · intro h; exact absurd h.1 (by decide)
          · rintro ⟨t1, rfl, _, _, p, hp, _⟩
            rw [hd] at hp
            cases hp
        | ok plaintext =>
          simp only
          cases hw : env.writeFile (outputPathOf env t) plaintext with
          | some e =>
            simp only [httpError, respondOK, Outcome.response.injEq, Option.some.injEq]
            constructor
            · intro h; exact absurd h.1 (by decide)
            · rintro ⟨t1, rfl, _, _, p, hp, hw1⟩
              rw [hd] at hp
              cases hp
              rw [hw] at hw1
              cases hw1
          | none =>
            simp only [true_iff]
            exact ⟨t, rfl, (hcount.1 h1).2, h2, plaintext, hd, hw⟩
  · intro hne
    cases hs : store id with
    | none =>
      left
      exact ⟨rfl, _, by simp only [handleCompleteRequest, hs]; rfl⟩
    | some t =>
      rw [handleCompleteRequest_eval env store action id declared t hs (hfit t hs)] at hne ⊢
      split_ifs at hne ⊢ with h1 h2
      · right; left; exact ⟨_, rfl⟩
      · right; left; exact ⟨_, rfl⟩
      · right; right
        cases hd : DecryptAES256 env (orderedConcat t.Chunks t.TotalChunks) with
        | error e => exact ⟨_, t, rfl, rfl⟩
        | ok plaintext =>
          rw [hd] at hne
          simp only at hne ⊢
          cases hw : env.writeFile (outputPathOf env t) plaintext with
          | some e => exact ⟨_, t, rfl, rfl⟩
          | none =>
            rw [hw] at hne
            exact absurd rfl hne

theorem demoStoreSealed_record (t : FileTransfer) (h : demoStoreSealed (str "u") = some t) :
    t = demoSealed := by
  have hu : demoStoreSealed (str "u") = some demoSealed := by decide
  rw [hu] at h
  cases h
  rfl

/-- Instance of amended C1: the complete request for transfer `u` on `demoStoreSealed`,
under `sealedEnv`: the one chunk is held, it decrypts, and the answer is OK. -/
theorem handleCompleteRequest_ok_iff_witness :
    (∀ t, demoStoreSealed (str "u") = some t → KeysWithin t.Chunks t.TotalChunks) ∧
    (∀ t, demoStoreSealed (str "u") = some t → allocationsFit sealedEnv t) ∧
    (handleCompleteRequest sealedEnv [str "complete", str "u", demoSum] demoStoreSealed).1
      = respondOK ∧
    ∃ t, demoStoreSealed (str "u") = some t ∧ HoldsAll t.Chunks t.TotalChunks ∧
      calculateMD5 sealedEnv (orderedConcat t.Chunks t.TotalChunks) = demoSum ∧
      ∃ plaintext,
        DecryptAES256 sealedEnv (orderedConcat t.Chunks t.TotalChunks) = .ok plaintext ∧
        sealedEnv.writeFile (outputPathOf sealedEnv t) plaintext = none :=
  have hkeys : ∀ t, demoStoreSealed (str "u") = some t →
      KeysWithin t.Chunks t.TotalChunks := by
    intro t ht k hk
    rw [demoStoreSealed_record t ht, chunkGet_ne_none_iff] at hk
    have hk0 : k = 0 := by simpa [demoSealed] using hk
    rw [demoStoreSealed_record t ht, hk0]
    decide
  have hfit : ∀ t, demoStoreSealed (str "u") = some t → allocationsFit sealedEnv t := by
    intro t ht
    rw [demoStoreSealed_record t ht]
    exact ⟨by decide, fun h => absurd h (by decide)⟩
  ⟨hkeys, hfit, by decide,
   (handleCompleteRequest_ok_iff sealedEnv demoStoreSealed (str "complete") (str "u") demoSum
     hkeys hfit).1.1 (by decide)⟩

/-! ## Reassembly of a transfer with a negative declared size -/

/-- C3 at a failing input: the string `ab` split by 2 is the one chunk `ab`; after
the requests `demoInitNegative` and `demoChunk` the transfer `t` has `TotalChunks = 1`
and holds that chunk at index 0, yet `ConcatenateChunks` does not return `ab`: it
panics in `builder.Grow`, and a complete request ends in that panic. -/
theorem ConcatenateChunks_negative_FileSize :
    SplitHexString (str "ab") 2 = some [str "ab"] ∧
    (run demoEnv [.request demoClock demoInitNegative, .request demoClock demoChunk]) (str "t")
      = some { ID := str "t", Filename := str "f", TotalChunks := 1, FileSize := -1,
               Chunks := [(0, str "ab")], Created := 0, LastUpdated := 0, Checksum := [] } ∧
    ConcatenateChunks demoEnv
      { ID := str "t", Filename := str "f", TotalChunks := 1, FileSize := -1,
        Chunks := [(0, str "ab")], Created := 0, LastUpdated := 0, Checksum := [] } = none ∧
    (HandleRequest demoEnv demoClock demoComplete
      (run demoEnv [.request demoClock demoInitNegative, .request demoClock demoChunk])).1
      = Outcome.panic := by
  refine ⟨by decide, by decide, by decide, by decide⟩

/-! ## The length of a chunk request path -/

theorem str_length (s : String) : (str s).length = s.length := by
  unfold str
  rw [List.length_map]
  rfl

theorem formatInt_length (i : Nat) (h : i < 10 ^ 11) : (formatInt (i : Int)).length ≤ 11 := by
  unfold formatInt
  rw [if_neg (by omega), str_length, Int.toNat_ofNat]
  exact Nat.repr_length i 11 (by decide) h

theorem CalculateOptimalChunkSize_range (data : GoString) :
    1000 ≤ CalculateOptimalChunkSize data ∧ CalculateOptimalChunkSize data ≤ 1916 := by
  simp only [CalculateOptimalChunkSize, MaxPayloadLength, pathOverhead, Min]
  split_ifs <;> omega

theorem chunkPath_length (env : Env) (transferID : GoString) (i : Int) (chunk : GoString) :
    (chunkPath env transferID i chunk).length =
      41 + transferID.length + (formatInt i).length + chunk.length := by
  have h1 : (str "chunk/").length = 6 := by decide
  have h2 : (str "/").length = 1 := by decide
  simp only [chunkPath, List.length_append, calculateMD5_length, h1, h2]
  omega

theorem trimPrefixSlash_chunkPath (env : Env) (transferID : GoString) (i : Int)
    (chunk : GoString) :
    trimPrefixSlash (chunkPath env transferID i chunk) = chunkPath env transferID i chunk := by
  rfl

theorem chunkPath_of_digits (env : Env) (data : GoString) (chunks : List GoString)
    (i : Nat)
    (hsplit : SplitHexString data (CalculateOptimalChunkSize data) = some chunks)
    (hi : i < chunks.length) (hdigits : i < 10 ^ 11) :
    ((chunkPath env (calculateMD5 env data) (i : Int) (chunks.get ⟨i, hi⟩)).length : Int)
      ≤ MaxPayloadLength ∧
    ∀ transport baseURL,
      SendRequest transport baseURL
        (chunkPath env (calculateMD5 env data) (i : Int) (chunks.get ⟨i, hi⟩))
      = transport ((if hasSuffixSlash baseURL then baseURL else baseURL ++ str "/") ++
          chunkPath env (calculateMD5 env data) (i : Int) (chunks.get ⟨i, hi⟩) ++ URLSuffix) := by
  have hr := CalculateOptimalChunkSize_range data
  obtain ⟨n, hn⟩ : ∃ n : Nat, CalculateOptimalChunkSize data = (n : Int) :=
    ⟨(CalculateOptimalChunkSize data).toNat, by omega⟩
  rw [hn] at hsplit hr
  rw [SplitHexString_eq data n (by omega)] at hsplit
  cases hsplit
  have hchunk : ((sliceList data n (chunkCount data.length n)).get ⟨i, hi⟩).length ≤ n := by
    rw [sliceList_get]
    exact List.length_take_le _ _
  have hfmt := formatInt_length i hdigits
  have hpath : ((chunkPath env (calculateMD5 env data) (i : Int)
      ((sliceList data n (chunkCount data.length n)).get ⟨i, hi⟩)).length : Int)
      ≤ MaxPayloadLength := by
    rw [chunkPath_length, calculateMD5_length]
    unfold MaxPayloadLength
    omega
  refine ⟨hpath, ?_⟩
  intro transport baseURL
  simp only [SendRequest, trimPrefixSlash_chunkPath]
  rw [if_neg (by omega)]

theorem encoded_length (env : Env) (plaintext : List Byte) (keyString : GoString)
    (nonce : {n : List Byte // n.length = gcmNonceSize}) (data : GoString)
    (htag : ∀ key iv pt, (env.gcmSeal key iv pt).length = pt.length + 16)
    (hdata : OriginalEncryptFile env (.ok plaintext) keyString (.ok nonce) = .ok data) :
    data.length = 2 * (plaintext.length + 28) := by
  simp only [OriginalEncryptFile, Except.ok.injEq] at hdata
  rw [← hdata, EncodeToString_length, List.length_append, htag, nonce.property]
  unfold gcmNonceSize
  omega

theorem chunkCount_small (len size : Nat) (hs : 1000 ≤ size) (hsz : size ≤ 1916)
    (hlen : len ≤ 137438953464) : chunkCount len size < 10 ^ 11 := by
  unfold chunkCount
  have h1 : (len + size - 1) / size ≤ (len + size - 1) / 1000 :=
    Nat.div_le_div_left hs (by decide)
  have h2 : (len + size - 1) / 1000 < 10 ^ 11 := by
    rw [Nat.div_lt_iff_lt_mul (by decide)]
    norm_num
    omega
  omega

/-- C9: for every payload `data` that `OriginalEncryptFile` returns, the hex text of
the nonce and of the sealed content of a file that AES-GCM accepts (at most
`gcmMaxPlaintext` bytes, the tag adding 16), and for every index `i` of
`chunks = SplitHexString(data, CalculateOptimalChunkSize(data))`, the chunk request
path `chunk/MD5(data)/i/MD5(chunks[i])/chunks[i]` has length at most
`MaxPayloadLength`, and `SendRequest` does not reject it for its length but passes
it to the transport. -/
theorem chunkPath_within_limit (env : Env) (plaintext : List Byte) (keyString : GoString)
    (nonce : {n : List Byte // n.length = gcmNonceSize}) (data : GoString)
    (chunks : List GoString) (i : Nat)
    (htag : ∀ key iv pt, (env.gcmSeal key iv pt).length = pt.length + 16)
    (hlimit : plaintext.length ≤ gcmMaxPlaintext)
    (hdata : OriginalEncryptFile env (.ok plaintext) keyString (.ok nonce) = .ok data)
    (hsplit : SplitHexString data (CalculateOptimalChunkSize data) = some chunks)
    (hi : i < chunks.length) :
    ((chunkPath env (calculateMD5 env data) (i : Int) (chunks.get ⟨i, hi⟩)).length : Int)
      ≤ MaxPayloadLength ∧
    ∀ transport baseURL,
      SendRequest transport baseURL
        (chunkPath env (calculateMD5 env data) (i : Int) (chunks.get ⟨i, hi⟩))
      = transport ((if hasSuffixSlash baseURL then baseURL else baseURL ++ str "/") ++
          chunkPath env (calculateMD5 env data) (i : Int) (chunks.get ⟨i, hi⟩) ++ URLSuffix) := by
  apply chunkPath_of_digits env data chunks i hsplit hi
  have hlen := encoded_length env plaintext keyString nonce data htag hdata
  have hr := CalculateOptimalChunkSize_range data
  obtain ⟨n, hn⟩ : ∃ n : Nat, CalculateOptimalChunkSize data = (n : Int) :=
    ⟨(CalculateOptimalChunkSize data).toNat, by omega⟩
  rw [hn] at hsplit hr
  rw [SplitHexString_eq data n (by omega)] at hsplit
  cases hsplit
  rw [sliceList_length] at hi
  have hc := chunkCount_small data.length n (by omega) (by omega)
    (by unfold gcmMaxPlaintext at hlimit; omega)
  omega

theorem EncodeToString_zeros (n : Nat) :
    EncodeToString (List.replicate n 0) = List.replicate (2 * n) 48 := by
  induction n with
  | zero => rfl
  | succ k ih =>
    rw [List.replicate_succ]
    show _ :: _ :: EncodeToString (List.replicate k 0) = _
    rw [ih]
    rfl

theorem demoEncoded :
    OriginalEncryptFile sealedEnv (.ok (List.replicate 500 0)) (str "k")
      (.ok ⟨List.replicate 12 0, rfl⟩) = .ok (List.replicate 1056 48) := by
  have h : OriginalEncryptFile sealedEnv (.ok (List.replicate 500 0)) (str "k")
      (.ok ⟨List.replicate 12 0, rfl⟩) =
      .ok (EncodeToString
        (List.replicate 12 0 ++ (List.replicate 500 0 ++ List.replicate 16 0))) := rfl
  rw [h, List.append_replicate_replicate, List.append_replicate_replicate,
    EncodeToString_zeros]

set_option maxRecDepth 100000 in
theorem demoEncoded_split :
    SplitHexString (List.replicate 1056 48) (CalculateOptimalChunkSize (List.replicate 1056 48))
      = some [List.replicate 1000 48, List.replicate 56 48] := by
  decide

theorem sealedEnv_tag (key iv pt : List Byte) :
    (sealedEnv.gcmSeal key iv pt).length = pt.length + 16 := by
  simp [sealedEnv]

/-- Instance of C9: a file of 500 zero bytes under `sealedEnv` with a zero nonce: the
payload has 1056 characters and is split into two chunks; the path of the second,
index 1, is within the limit. -/
theorem chunkPath_within_limit_witness :
    (∀ key iv pt, (sealedEnv.gcmSeal key iv pt).length = pt.length + 16) ∧
    (List.replicate 500 (0 : Byte)).length ≤ gcmMaxPlaintext ∧
    OriginalEncryptFile sealedEnv (.ok (List.replicate 500 0)) (str "k")
      (.ok ⟨List.replicate 12 0, rfl⟩) = .ok (List.replicate 1056 48) ∧
    SplitHexString (List.replicate 1056 48) (CalculateOptimalChunkSize (List.replicate 1056 48))
      = some [List.replicate 1000 48, List.replicate 56 48] ∧
    ((chunkPath sealedEnv (calculateMD5 sealedEnv (List.replicate 1056 48)) ((1 : Nat) : Int)
        ([List.replicate 1000 48, List.replicate 56 48].get ⟨1, by decide⟩)).length : Int)
      ≤ MaxPayloadLength :=
  have hlimit : (List.replicate 500 (0 : Byte)).length ≤ gcmMaxPlaintext := by
    rw [List.length_replicate]
    decide
  ⟨sealedEnv_tag, hlimit, demoEncoded, demoEncoded_split,
   (chunkPath_within_limit sealedEnv (List.replicate 500 0) (str "k")
     ⟨List.replicate 12 0, rfl⟩ (List.replicate 1056 48)
     [List.replicate 1000 48, List.replicate 56 48] 1 sealedEnv_tag hlimit demoEncoded
     demoEncoded_split (by decide)).1⟩

/-! ## A complete request before all chunks have arrived -/

theorem handleCompleteRequest_listing_fits (env : Env) (store : Store)
    (action id declared : GoString) (transfer : FileTransfer)
    (hs : store id = some transfer)
    (hfit : env.verboseMode = true → ((missingChunks transfer).length : Int) ≤ env.maxListing)
    (hcount : chunkLen transfer.Chunks ≠ transfer.TotalChunks) :
    handleCompleteRequest env [action, id, declared] store =
      (Outcome.response 400
        (str "Missing chunks: " ++ formatInt (chunkLen transfer.Chunks) ++ str "/" ++
          formatInt transfer.TotalChunks ++ str " received" ++ str "\n"), store) := by
  have hv : ¬ (env.verboseMode = true ∧
      ((missingChunks transfer).length : Int) > env.maxListing) := by
    rintro ⟨h1, h2⟩
    have := hfit h1
    omega
  simp only [handleCompleteRequest, hs]
  rw [if_neg hv, if_pos hcount]
  rfl

theorem handleCompleteRequest_listing_fails (env : Env) (store : Store)
    (action id declared : GoString) (transfer : FileTransfer)
    (hs : store id = some transfer) (hv : env.verboseMode = true)
    (hbig : ((missingChunks transfer).length : Int) > env.maxListing) :
    handleCompleteRequest env [action, id, declared] store = (Outcome.panic, store) := by
  simp only [handleCompleteRequest, hs]
  rw [if_pos ⟨hv, hbig⟩]

theorem missingChunks_length_of_empty (transfer : FileTransfer) (h : transfer.Chunks = []) :
    (missingChunks transfer).length = transfer.TotalChunks.toNat := by
  unfold missingChunks
  rw [List.length_map, h, List.filter_eq_self.2, List.length_range]
  intro i _
  rfl

/-- C11 at a failing input: with the server in verbose mode, after the init request
`init/t/9223372036854775807/0/f` the transfer `t` holds 0 chunks of
9223372036854775807, yet the complete request `complete/t/x` is not answered with
`Missing chunks: 0/9223372036854775807 received`: the listing of the
9223372036854775807 missing chunks cannot be built and the handler does not
return, under `verboseEnv` and under every environment that cannot list that
many. With verbose mode off the same request gets that answer, as does every
complete request for a transfer holding `r ≠ TotalChunks` chunks whose listing, in
verbose mode, can be built; the store is then left as it was. -/
theorem handleCompleteRequest_missing_chunks :
    demoStoreHuge (str "t") = some demoHuge ∧
    chunkLen demoHuge.Chunks = 0 ∧ demoHuge.TotalChunks = 9223372036854775807 ∧
    handleCompleteRequest verboseEnv [str "complete", str "t", str "x"] demoStoreHuge =
      (Outcome.panic, demoStoreHuge) ∧
    (∀ env : Env, env.verboseMode = true → env.maxListing < 9223372036854775807 →
      handleCompleteRequest env [str "complete", str "t", str "x"] demoStoreHuge =
        (Outcome.panic, demoStoreHuge)) ∧
    handleCompleteRequest demoEnv [str "complete", str "t", str "x"] demoStoreHuge =
      (Outcome.response 400 (str "Missing chunks: 0/9223372036854775807 received\n"),
        demoStoreHuge) ∧
    ∀ (env : Env) (store : Store) (action id declared : GoString) (transfer : FileTransfer),
      store id = some transfer →
      (env.verboseMode = true → ((missingChunks transfer).length : Int) ≤ env.maxListing) →
      chunkLen transfer.Chunks ≠ transfer.TotalChunks →
      handleCompleteRequest env [action, id, declared] store =
        (Outcome.response 400
          (str "Missing chunks: " ++ formatInt (chunkLen transfer.Chunks) ++ str "/" ++
            formatInt transfer.TotalChunks ++ str " received" ++ str "\n"), store) ∧
      Outcome.response 400
          (str "Missing chunks: " ++ formatInt (chunkLen transfer.Chunks) ++ str "/" ++
            formatInt transfer.TotalChunks ++ str " received" ++ str "\n") ≠ respondOK := by
  have hs : demoStoreHuge (str "t") = some demoHuge := by decide
  have hlen : ((missingChunks demoHuge).length : Int) = 9223372036854775807 := by
    rw [missingChunks_length_of_empty demoHuge rfl]
    decide
  refine ⟨hs, by decide, rfl, ?_, ?_, ?_, ?_⟩
  · apply handleCompleteRequest_listing_fails verboseEnv demoStoreHuge _ _ _ demoHuge hs rfl
    rw [hlen]
    decide
  · intro env hv hmax
    apply handleCompleteRequest_listing_fails env demoStoreHuge _ _ _ demoHuge hs hv
    rw [hlen]
    exact hmax
  · have h := handleCompleteRequest_listing_fits demoEnv demoStoreHuge (str "complete")
      (str "t") (str "x") demoHuge hs (fun hv => absurd hv (by decide)) (by decide)
    rw [h]
    have hb : str "Missing chunks: " ++ formatInt (chunkLen demoHuge.Chunks) ++ str "/" ++
        formatInt demoHuge.TotalChunks ++ str " received" ++ str "\n" =
        str "Missing chunks: 0/9223372036854775807 received\n" := by decide
    rw [hb]
  · intro env store action id declared transfer hs hfit hcount
    exact ⟨handleCompleteRequest_listing_fits env store action id declared transfer hs hfit
      hcount, by simp [respondOK]⟩

/-- Three of five chunks held, verbose mode off: the message is `3/5 received`. -/
theorem handleCompleteRequest_three_of_five :
    demoStorePartial (str "w") = some demoPartial ∧
    chunkLen demoPartial.Chunks = 3 ∧ demoPartial.TotalChunks = 5 ∧
    handleCompleteRequest demoEnv [str "complete", str "w", demoSum] demoStorePartial =
      (Outcome.response 400 (str "Missing chunks: 3/5 received\n"), demoStorePartial) := by
  refine ⟨by decide, by decide, by decide, ?_⟩
  rw [handleCompleteRequest_listing_fits demoEnv demoStorePartial (str "complete") (str "w")
    demoSum demoPartial (by decide) (fun hv => absurd hv (by decide)) (by decide)]
  have hb : str "Missing chunks: " ++ formatInt (chunkLen demoPartial.Chunks) ++ str "/" ++
      formatInt demoPartial.TotalChunks ++ str " received" ++ str "\n" =
      str "Missing chunks: 3/5 received\n" := by decide
  rw [hb]

/-! ## Init requests -/

/-- C13: for every store and every init request `(id, totalChunks, fileSize, filename)`
whose numeric fields parse, `handleInitRequest` answers OK and the store then maps
`id` to a transfer with exactly those fields, an empty chunk map and an empty
checksum, whatever was recorded for `id` before; every other transfer is
unchanged. -/
theorem handleInitRequest_fresh (now : Nat → Int) (store : Store)
    (action id c2 c3 filename : GoString) (totalChunks fileSize : Int)
    (h2 : Atoi c2 = some totalChunks) (h3 : Atoi c3 = some fileSize) :
    (handleInitRequest now [action, id, c2, c3, filename] store).1 = respondOK ∧
    (handleInitRequest now [action, id, c2, c3, filename] store).2 id = some
      { ID := id, Filename := filename, TotalChunks := totalChunks, FileSize := fileSize,
        Chunks := [], Created := now 0, LastUpdated := now 1, Checksum := [] } ∧
    (∀ k, ((handleInitRequest now [action, id, c2, c3, filename] store).2 id).map
      (fun t => chunkGet t.Chunks k) = some none) ∧
    ∀ other, other ≠ id →
      (handleInitRequest now [action, id, c2, c3, filename] store).2 other = store other := by
  simp only [handleInitRequest, h2, h3, Function.update_same, Option.map_some', chunkGet,
    List.lookup_nil, implies_true, true_and]
  intro other hne
  exact Function.update_noteq hne _ _

/-- Instance of C13: a second init request for transfer `t`, which already holds a
chunk in `demoStore`. -/
theorem handleInitRequest_fresh_witness :
    (demoStore (str "t")).map (fun t => t.Chunks) = some [(0, str "ab")] ∧
    (handleInitRequest demoClockLate
      [str "init", str "t", str "3", str "6", str "g"] demoStore).2 (str "t") = some
      { ID := str "t", Filename := str "g", TotalChunks := 3, FileSize := 6,
        Chunks := [], Created := 100, LastUpdated := 101, Checksum := [] } :=
  ⟨by decide,
   (handleInitRequest_fresh demoClockLate demoStore (str "init") (str "t") (str "3") (str "6")
     (str "g") 3 6 (by decide) (by decide)).2.1⟩

/-! ## Accepted chunk requests -/

theorem handleChunkRequest_accepted (env : Env) (now : Nat → Int) (store : Store)
    (action id index checksum payload : GoString)
    (hok : (handleChunkRequest env now [action, id, index, checksum, payload] store).1.1
      = respondOK) :
    ∃ i t, Atoi index = some i ∧ calculateMD5 env payload = checksum ∧ store id = some t ∧
      (handleChunkRequest env now [action, id, index, checksum, payload] store).1.2 =
        Function.update store id
          (some { t with Chunks := chunkSet t.Chunks i payload, LastUpdated := now 0 }) := by
  cases h2 : Atoi index with
  | none =>
    simp [handleChunkRequest, h2, httpError, respondOK] at hok
  | some i =>
    by_cases hsum : calculateMD5 env payload = checksum
    · cases hs : store id with
      | none =>
        simp [handleChunkRequest, h2, hsum, hs, httpError, respondOK] at hok
      | some t =>
        refine ⟨i, t, rfl, hsum, rfl, ?_⟩
        simp only [handleChunkRequest, h2, hs, hsum, ne_eq, not_true_eq_false, if_false]
    · simp [handleChunkRequest, h2, hsum, httpError, respondOK] at hok

theorem handleChunkRequest_accepts (env : Env) (now : Nat → Int) (store : Store)
    (action id index payload : GoString) (i : Int) (t : FileTransfer)
    (h2 : Atoi index = some i) (hs : store id = some t) :
    (handleChunkRequest env now [action, id, index, calculateMD5 env payload, payload] store).1 =
      (respondOK, writeChunk store id i payload (now 0)) := by
  simp only [handleChunkRequest, h2, hs, writeChunk, ne_eq, not_true_eq_false, if_false]

theorem handleChunkRequest_logs (env : Env) (now : Nat → Int) (store : Store)
    (action id index payload : GoString) (i : Int) (t : FileTransfer)
    (h2 : Atoi index = some i) (hs : store id = some t) :
    (handleChunkRequest env now [action, id, index, calculateMD5 env payload, payload] store).2 =
      if env.verboseMode = true then
        some { received := wrap64 (i + 1),
               total := (env.readUnlocked
                 { t with Chunks := chunkSet t.Chunks i payload, LastUpdated := now 0 }).TotalChunks,
               id := id,
               filename := (env.readUnlocked
                 { t with Chunks := chunkSet t.Chunks i payload, LastUpdated := now 0 }).Filename }
      else none := by
  simp only [handleChunkRequest, h2, hs, ne_eq, not_true_eq_false, if_false]

theorem writeChunk_present (store : Store) (id : GoString) (i : Int) (payload : GoString)
    (time : Int) (other : GoString) (t : FileTransfer) (h : store other = some t) :
    ∃ t1, writeChunk store id i payload time other = some t1 := by
  unfold writeChunk
  cases hs : store id with
  | none => exact ⟨t, h⟩
  | some t0 =>
    by_cases e : other = id
    · subst e; exact ⟨_, Function.update_same _ _ _⟩
    · exact ⟨t, by simp only [Function.update_noteq e]; exact h⟩

theorem holdsChunk_writeChunk (store : Store) (id : GoString) (i : Int) (payload : GoString)
    (time : Int) (t : FileTransfer) (h : store id = some t) :
    holdsChunk (writeChunk store id i payload time) id i payload := by
  unfold writeChunk
  rw [h]
  exact ⟨_, Function.update_same _ _ _, by simp [chunkGet_chunkSet]⟩

theorem holdsChunk_writeChunk_other (store : Store) (id : GoString) (i : Int)
    (payload : GoString) (time : Int) (id1 : GoString) (i1 : Int) (payload1 : GoString)
    (h : holdsChunk store id1 i1 payload1) (hne : id1 ≠ id ∨ i1 ≠ i) :
    holdsChunk (writeChunk store id i payload time) id1 i1 payload1 := by
  obtain ⟨t1, ht1, hget⟩ := h
  unfold writeChunk
  cases hs : store id with
  | none => exact ⟨t1, ht1, hget⟩
  | some t0 =>
    by_cases e : id1 = id
    · subst e
      rw [hs] at ht1
      cases ht1
      have hi : i1 ≠ i := by
        rcases hne with h | h
        · exact absurd rfl h
        · exact h
      refine ⟨_, Function.update_same _ _ _, ?_⟩
      simp only [chunkGet_chunkSet, if_neg hi]
      exact hget
    · exact ⟨t1, by simp only [Function.update_noteq e]; exact ht1, hget⟩

/-- C14: after an accepted chunk request `(id, i, payload)`, with verbose mode on or
off, the store differs from the store before only in the record of transfer `id`,
whose chunk map now holds `payload` at index `i` and whose `LastUpdated` is the
clock reading of the request; the other indices of that chunk map, the other
fields of the record and every other transfer are as before. What the verbose
block reads after the unlock goes into the log line only, whatever it sees.
Hence, of two chunk requests that the store accepts, at distinct indices or for
distinct ids, each is accepted after the other, and in either order both
payloads are held afterwards. -/
theorem handleChunkRequest_frame (env : Env) (now now2 : Nat → Int) (store : Store)
    (action id index checksum payload action2 id2 index2 checksum2 payload2 : GoString)
    (hok : (handleChunkRequest env now [action, id, index, checksum, payload] store).1.1
      = respondOK)
    (hok2 : (handleChunkRequest env now2 [action2, id2, index2, checksum2, payload2] store).1.1
      = respondOK) :
    ∃ i i2 t,
      Atoi index = some i ∧ Atoi index2 = some i2 ∧ store id = some t ∧
      (handleChunkRequest env now [action, id, index, checksum, payload] store).1.2 id =
        some { t with Chunks := chunkSet t.Chunks i payload, LastUpdated := now 0 } ∧
      (handleChunkRequest env now [action, id, index, checksum, payload] store).2 =
        (if env.verboseMode = true then
          some { received := wrap64 (i + 1),
                 total := (env.readUnlocked { t with
                   Chunks := chunkSet t.Chunks i payload, LastUpdated := now 0 }).TotalChunks,
                 id := id,
                 filename := (env.readUnlocked { t with
                   Chunks := chunkSet t.Chunks i payload, LastUpdated := now 0 }).Filename }
        else none) ∧
      chunkGet (chunkSet t.Chunks i payload) i = some payload ∧
      (∀ j, j ≠ i → chunkGet (chunkSet t.Chunks i payload) j = chunkGet t.Chunks j) ∧
      (∀ other, other ≠ id →
        (handleChunkRequest env now [action, id, index, checksum, payload] store).1.2 other
          = store other) ∧
      (id ≠ id2 ∨ i ≠ i2 →
        (handleChunkRequest env now2 [action2, id2, index2, checksum2, payload2]
          (handleChunkRequest env now [action, id, index, checksum, payload] store).1.2).1.1
          = respondOK ∧
        (handleChunkRequest env now [action, id, index, checksum, payload]
          (handleChunkRequest env now2 [action2, id2, index2, checksum2, payload2] store).1.2).1.1
          = respondOK ∧
        holdsChunk
          (handleChunkRequest env now2 [action2, id2, index2, checksum2, payload2]
            (handleChunkRequest env now [action, id, index, checksum, payload] store).1.2).1.2
          id i payload ∧
        holdsChunk
          (handleChunkRequest env now2 [action2, id2, index2, checksum2, payload2]
            (handleChunkRequest env now [action, id, index, checksum, payload] store).1.2).1.2
          id2 i2 payload2 ∧
        holdsChunk
          (handleChunkRequest env now [action, id, index, checksum, payload]
            (handleChunkRequest env now2 [action2, id2, index2, checksum2, payload2] store).1.2).1.2
          id i payload ∧
        holdsChunk
          (handleChunkRequest env now [action, id, index, checksum, payload]
            (handleChunkRequest env now2 [action2, id2, index2, checksum2, payload2] store).1.2).1.2
          id2 i2 payload2) := by
  obtain ⟨i, t, h2, hsum, hs, hst⟩ :=
    handleChunkRequest_accepted env now store action id index checksum payload hok
  obtain ⟨i2, t2, h22, hsum2, hs2, _⟩ :=
    handleChunkRequest_accepted env now2 store action2 id2 index2 checksum2 payload2 hok2
  subst hsum
  subst hsum2
  have e1 := handleChunkRequest_accepts env now store action id index payload i t h2 hs
  have e2 := handleChunkRequest_accepts env now2 store action2 id2 index2 payload2 i2 t2 h22 hs2
  refine ⟨i, i2, t, h2, h22, hs, ?_,
    handleChunkRequest_logs env now store action id index payload i t h2 hs, ?_, ?_, ?_, ?_⟩
  · rw [hst, Function.update_same]
  · simp [chunkGet_chunkSet]
  · intro j hj
    simp [chunkGet_chunkSet, hj]
  · intro other hne
    rw [hst, Function.update_noteq hne]
  · intro hne
    obtain ⟨u2, hu2⟩ := writeChunk_present store id i payload (now 0) id2 t2 hs2
    obtain ⟨u1, hu1⟩ := writeChunk_present store id2 i2 payload2 (now2 0) id t hs
    have hne2 : id2 ≠ id ∨ i2 ≠ i := by
      rcases hne with h | h
      · exact Or.inl (fun e => h e.symm)
      · exact Or.inr (fun e => h e.symm)
    rw [e1, e2]
    simp only
    rw [handleChunkRequest_accepts env now2 _ action2 id2 index2 payload2 i2 u2 h22 hu2,
      handleChunkRequest_accepts env now _ action id index payload i u1 h2 hu1]
    refine ⟨rfl, rfl, ?_, ?_, ?_, ?_⟩
    · exact holdsChunk_writeChunk_other _ _ _ _ _ _ _ _
        (holdsChunk_writeChunk store id i payload (now 0) t hs) hne
    · exact holdsChunk_writeChunk _ _ _ _ _ u2 hu2
    · exact holdsChunk_writeChunk _ _ _ _ _ u1 hu1
    · exact holdsChunk_writeChunk_other _ _ _ _ _ _ _ _
        (holdsChunk_writeChunk store id2 i2 payload2 (now2 0) t2 hs2) hne2

/-- Instance of C14: on `demoStorePartial`, with the server in verbose mode, chunk
requests for transfer `w` at the indices 3 and 4. -/
theorem handleChunkRequest_frame_witness :
    (handleChunkRequest verboseEnv demoClockLate
      [str "chunk", str "w", str "3", demoSum, str "gh"] demoStorePartial).1.1 = respondOK ∧
    (handleChunkRequest verboseEnv demoClock
      [str "chunk", str "w", str "4", demoSum, str "ij"] demoStorePartial).1.1 = respondOK ∧
    ∃ i i2 t,
      Atoi (str "3") = some i ∧ Atoi (str "4") = some i2 ∧
      demoStorePartial (str "w") = some t ∧
      (handleChunkRequest verboseEnv demoClockLate
        [str "chunk", str "w", str "3", demoSum, str "gh"] demoStorePartial).1.2 (str "w") =
        some { t with Chunks := chunkSet t.Chunks i (str "gh"),
                      LastUpdated := demoClockLate 0 } :=
  ⟨by decide, by decide,
   (handleChunkRequest_frame verboseEnv demoClockLate demoClock demoStorePartial
     (str "chunk") (str "w") (str "3") demoSum (str "gh")
     (str "chunk") (str "w") (str "4") demoSum (str "ij") (by decide) (by decide)).imp
     (fun _ h => h.imp (fun _ h => h.imp (fun _ h => ⟨h.1, h.2.1, h.2.2.1, h.2.2.2.1⟩)))⟩

/-! ## Malformed requests -/

theorem Atoi_of_not_decimal (s : GoString) (h : isDecimalInteger s = false) : Atoi s = none := by
  cases s with
  | nil => rfl
  | cons c rest =>
    simp only [isDecimalInteger] at h
    simp only [Atoi]
    by_cases h45 : c.val = 45
    · simp only [h45, true_or, if_true, Bool.and_eq_false_imp, Bool.not_eq_true',
        List.isEmpty_eq_false] at h
      simp only [h45, if_true]
      by_cases hr : rest = []
      · simp [hr]
      · have := h (by simpa using hr)
        simp [this]
    · by_cases h43 : c.val = 43
      · simp only [h43, or_true, if_true, Bool.and_eq_false_imp, Bool.not_eq_true',
          List.isEmpty_eq_false] at h
        simp only [h45, h43, if_true, if_false]
        by_cases hr : rest = []
        · simp [hr]
        · have := h (by simpa using hr)
          simp [this]
      · simp only [h45, h43, or_self, if_false] at h
        simp only [h45, h43, if_false]
        simp [h]

theorem handleInitRequest_malformed (now : Nat → Int) (comps : List GoString) (store : Store)
    (h : comps.length ≠ 5 ∨ Atoi (comps.getD 2 []) = none ∨ Atoi (comps.getD 3 []) = none) :
    ∃ body, handleInitRequest now comps store = (Outcome.response 400 body, store) := by
  rcases handleInitRequest_cases now comps store with hb | ⟨_, _, _, _, _, _, _, hc, h2, h3, _⟩
  · exact hb
  · subst hc
    rcases h with h | h | h
    · exact absurd rfl h
    · simp only [List.getD_cons_succ, List.getD_cons_zero] at h
      rw [h] at h2
      cases h2
    · simp only [List.getD_cons_succ, List.getD_cons_zero] at h
      rw [h] at h3
      cases h3

theorem handleChunkRequest_malformed (env : Env) (now : Nat → Int) (comps : List GoString)
    (store : Store) (h : comps.length ≠ 5 ∨ Atoi (comps.getD 2 []) = none) :
    ∃ body, (handleChunkRequest env now comps store).1 = (Outcome.response 400 body, store) := by
  unfold handleChunkRequest
  split
  · rename_i action id index declared payload
    rcases h with h | h
    · exact absurd rfl h
    · simp only [List.getD_cons_succ, List.getD_cons_zero] at h
      rw [h]
      exact ⟨_, rfl⟩
  · exact ⟨_, rfl⟩

theorem handleCompleteRequest_malformed (env : Env) (comps : List GoString) (store : Store)
    (h : comps.length ≠ 3) :
    ∃ body, handleCompleteRequest env comps store = (Outcome.response 400 body, store) := by
  unfold handleCompleteRequest
  split
  · exact absurd rfl h
  · exact ⟨_, rfl⟩

/-- C15: for every request path, if its first field is not one of `init`, `chunk`,
`complete`, or its number of fields differs from the arity of the selected handler,
or a numeric field is not a decimal integer, then `HandleRequest` answers with
status 400 and leaves the store as it was. -/
theorem HandleRequest_malformed (env : Env) (now : Nat → Int) (urlPath : GoString)
    (store : Store) (h : malformedRequest (requestFields urlPath) = true) :
    ∃ body, HandleRequest env now urlPath store = (Outcome.response 400 body, store) := by
  unfold HandleRequest
  unfold requestFields at h
  simp only
  generalize stringsSplit (stringsTrim urlPath) = comps at h ⊢
  have hic : str "init" ≠ str "chunk" := by decide
  have hio : str "init" ≠ str "complete" := by decide
  have hco : str "chunk" ≠ str "complete" := by decide
  simp only [malformedRequest, Bool.or_eq_true, Bool.and_eq_true, decide_eq_true_eq,
    Bool.not_eq_true'] at h
  split_ifs with h1 hinit hchunk hcomplete
  · exact ⟨_, rfl⟩
  · apply handleInitRequest_malformed
    rw [hinit] at h
    rcases h with ((((h | h) | h) | h) | h) | h
    · exact absurd rfl h.1
    · exact Or.inl h.2
    · exact absurd h.1 hic
    · exact absurd h.1 hio
    · rcases h.2 with h2 | h2
      · exact Or.inr (Or.inl (Atoi_of_not_decimal _ h2))
      · exact Or.inr (Or.inr (Atoi_of_not_decimal _ h2))
    · exact absurd h.1 hic
  · apply handleChunkRequest_malformed
    rw [hchunk] at h
    rcases h with ((((h | h) | h) | h) | h) | h
    · exact absurd rfl h.2.1
    · exact absurd h.1.symm hic
    · exact Or.inl h.2
    · exact absurd h.1 hco
    · exact absurd h.1.symm hic
    · exact Or.inr (Atoi_of_not_decimal _ h.2)
  · apply handleCompleteRequest_malformed
    rw [hcomplete] at h
    rcases h with ((((h | h) | h) | h) | h) | h
    · exact absurd rfl h.2.2
    · exact absurd h.1.symm hio
    · exact absurd h.1.symm hco
    · exact h.2
    · exact absurd h.1.symm hio
    · exact absurd h.1.symm hco
  · exact ⟨_, rfl⟩

/-- Instance of C15: an init request whose total-chunks field is `x`. -/
theorem HandleRequest_malformed_witness :
    requestFields (str "/init/t/x/2/f") = [str "init", str "t", str "x", str "2", str "f"] ∧
    ∃ body, HandleRequest demoEnv demoClock (str "/init/t/x/2/f") demoStore
      = (Outcome.response 400 body, demoStore) :=
  ⟨by decide, HandleRequest_malformed demoEnv demoClock (str "/init/t/x/2/f") demoStore
    (by decide)⟩

/-! ## The transmission loop -/

theorem retryLoop_spec (net : Network) (baseURL path : GoString) (i : Nat)
    (log : List Effect) :
    retryLoop (net.chunk i) baseURL path i 3 (List.range' 1 3) log =
      (chunkOK net baseURL path i, log ++ specAttempts net baseURL path i) := by
  have hr : List.range' 1 3 = [1, 2, 3] := by decide
  rw [hr]
  simp only [retryLoop, chunkOK, specAttempts, attemptOK, attemptEffect]
  cases h1 : SendRequest (net.chunk i 1) baseURL path with
  | none => simp
  | some e1 =>
    cases h2 : SendRequest (net.chunk i 2) baseURL path with
    | none => simp
    | some e2 =>
      cases h3 : SendRequest (net.chunk i 3) baseURL path with
      | none => simp
      | some e3 => simp

theorem chunkLoop_spec (env : Env) (net : Network) (baseURL transferID : GoString)
    (totalChunks : Int) (chunks : List GoString) :
    ∀ (i : Nat) (log : List Effect),
      chunkLoop env net baseURL transferID totalChunks i chunks log =
        (allOKFrom env net baseURL transferID i chunks,
          log ++ specChunks env net baseURL transferID totalChunks i chunks) := by
  induction chunks with
  | nil => intro i log; simp [chunkLoop, allOKFrom, specChunks]
  | cons chunk rest ih =>
    intro i log
    simp only [chunkLoop, retryLoop_spec, allOKFrom, specChunks]
    cases hok : chunkOK net baseURL (chunkPath env transferID (i : Int) chunk) i with
    | false => simp
    | true =>
      by_cases hlast : (i : Int) < totalChunks - 1
      · simp [hlast, ih]
      · simp [hlast, ih]

theorem mem_specAttempts (net : Network) (baseURL path : GoString) (i : Nat) (e : Effect)
    (h : e ∈ specAttempts net baseURL path i) :
    (∃ a, 1 ≤ a ∧ a ≤ 3 ∧ e = attemptEffect net baseURL path i a ∧
      ∀ b, 1 ≤ b → b < a → attemptOK net baseURL path i b = false) ∨
    (∃ a : Nat, (a = 1 ∨ a = 2) ∧ e = Effect.sleep ((a : Int) * Second)) := by
  unfold specAttempts at h
  have hb1 : ∀ b : Nat, 1 ≤ b → b < 1 → attemptOK net baseURL path i b = false := by
    intro b h1 h2; omega
  split_ifs at h with h1 h2
  · simp only [List.mem_singleton] at h
    exact Or.inl ⟨1, le_refl _, by omega, h, hb1⟩
  · have hb2 : ∀ b : Nat, 1 ≤ b → b < 2 → attemptOK net baseURL path i b = false := by
      intro b hb hb'
      have : b = 1 := by omega
      subst this
      simpa using h1
    simp only [List.mem_cons, List.mem_singleton, List.not_mem_nil, or_false] at h
    rcases h with h | h | h
    · exact Or.inl ⟨1, le_refl _, by omega, h, hb1⟩
    · exact Or.inr ⟨1, Or.inl rfl, by simpa using h⟩
    · exact Or.inl ⟨2, by omega, by omega, h, hb2⟩
  · have hb2 : ∀ b : Nat, 1 ≤ b → b < 2 → attemptOK net baseURL path i b = false := by
      intro b hb hb'
      have : b = 1 := by omega
      subst this
      simpa using h1
    have hb3 : ∀ b : Nat, 1 ≤ b → b < 3 → attemptOK net baseURL path i b = false := by
      intro b hb hb'
      have : b = 1 ∨ b = 2 := by omega
      rcases this with rfl | rfl
      · simpa using h1
      · simpa using h2
    simp only [List.mem_cons, List.mem_singleton, List.not_mem_nil, or_false] at h
    rcases h with h | h | h | h | h
    · exact Or.inl ⟨1, le_refl _, by omega, h, hb1⟩
    · exact Or.inr ⟨1, Or.inl rfl, by simpa using h⟩
    · exact Or.inl ⟨2, by omega, by omega, h, hb2⟩
    · exact Or.inr ⟨2, Or.inr rfl, by simpa using h⟩
    · exact Or.inl ⟨3, by omega, le_refl _, h, hb3⟩

theorem allOKFrom_iff (env : Env) (net : Network) (baseURL transferID : GoString)
    (chunks : List GoString) :
    ∀ i : Nat, allOKFrom env net baseURL transferID i chunks = true ↔
      ∀ (j : Nat) (chunk : GoString), chunks[j]? = some chunk →
        chunkOK net baseURL (chunkPath env transferID ((i + j : Nat) : Int) chunk) (i + j)
          = true := by
  induction chunks with
  | nil => intro i; simp [allOKFrom]
  | cons c rest ih =>
    intro i
    simp only [allOKFrom, Bool.and_eq_true, ih]
    constructor
    · rintro ⟨h0, hrest⟩ j chunk hj
      cases j with
      | zero =>
        simp only [List.getElem?_cons_zero, Option.some.injEq] at hj
        subst hj
        simpa using h0
      | succ j =>
        simp only [List.getElem?_cons_succ] at hj
        have := hrest j chunk hj
        have e : i + 1 + j = i + (j + 1) := by omega
        rw [e] at this
        exact this
    · intro h
      refine ⟨by simpa using h 0 c (by simp), ?_⟩
      intro j chunk hj
      have := h (j + 1) chunk (by simpa using hj)
      have e : i + 1 + j = i + (j + 1) := by omega
      rw [e]
      exact this

theorem mem_specChunks (env : Env) (net : Network) (baseURL transferID : GoString)
    (totalChunks : Int) (e : Effect) (chunks : List GoString) :
    ∀ i : Nat, e ∈ specChunks env net baseURL transferID totalChunks i chunks →
      ∃ (j : Nat) (chunk : GoString), chunks[j]? = some chunk ∧
        (∀ (k : Nat) (c : GoString), k < j → chunks[k]? = some c →
          chunkOK net baseURL (chunkPath env transferID ((i + k : Nat) : Int) c) (i + k)
            = true) ∧
        (e ∈ specAttempts net baseURL (chunkPath env transferID ((i + j : Nat) : Int) chunk)
            (i + j) ∨
          e = Effect.sleep (500 * Millisecond)) := by
  induction chunks with
  | nil => intro i h; simp [specChunks] at h
  | cons c rest ih =>
    intro i h
    simp only [specChunks, List.mem_append] at h
    rcases h with h | h
    · exact ⟨0, c, by simp, fun k _ hk => absurd hk (Nat.not_lt_zero k),
        Or.inl (by simpa using h)⟩
    · by_cases hok : chunkOK net baseURL (chunkPath env transferID (i : Int) c) i = true
      · rw [if_pos hok, List.mem_append] at h
        rcases h with h | h
        · refine ⟨0, c, by simp, fun k _ hk => absurd hk (Nat.not_lt_zero k), Or.inr ?_⟩
          split_ifs at h
          · simpa using h
          · simp at h
        · obtain ⟨j, chunk, hj, hbefore, hmem⟩ := ih (i + 1) h
          have e1 : i + 1 + j = i + (j + 1) := by omega
          rw [e1] at hmem
          refine ⟨j + 1, chunk, by simpa using hj, ?_, hmem⟩
          intro k c1 hk hc1
          cases k with
          | zero =>
            simp only [List.getElem?_cons_zero, Option.some.injEq] at hc1
            subst hc1
            simpa using hok
          | succ k =>
            simp only [List.getElem?_cons_succ] at hc1
            have := hbefore k c1 (by omega) hc1
            have e2 : i + 1 + k = i + (k + 1) := by omega
            rw [e2] at this
            exact this
      · rw [if_neg hok] at h
        simp at h

theorem chunkAttempts_append (l1 l2 : List Effect) :
    chunkAttempts (l1 ++ l2) = chunkAttempts l1 ++ chunkAttempts l2 := by
  simp [chunkAttempts, List.filterMap_append]

theorem mem_chunkAttempts (trace : List Effect) (x : Nat × Nat) :
    x ∈ chunkAttempts trace ↔ ∃ path err, Effect.chunkRequest x.1 x.2 path err ∈ trace := by
  unfold chunkAttempts
  rw [List.mem_filterMap]
  constructor
  · rintro ⟨e, he, hx⟩
    cases e with
    | chunkRequest i a p r =>
      simp only [Option.some.injEq] at hx
      subst hx
      exact ⟨p, r, he⟩
    | initRequest p r => simp at hx
    | completeRequest p r => simp at hx
    | sleep d => simp at hx
  · rintro ⟨p, r, h⟩
    exact ⟨_, h, rfl⟩

theorem specAttempts_order (net : Network) (baseURL path : GoString) (i : Nat) :
    (chunkAttempts (specAttempts net baseURL path i)).Pairwise attemptBefore := by
  unfold specAttempts
  split_ifs <;> simp [chunkAttempts, attemptEffect, attemptBefore]

theorem specChunks_attempt_range (env : Env) (net : Network) (baseURL transferID : GoString)
    (totalChunks : Int) (chunks : List GoString) (i : Nat) (x : Nat × Nat)
    (h : x ∈ chunkAttempts (specChunks env net baseURL transferID totalChunks i chunks)) :
    i ≤ x.1 ∧ x.1 < i + chunks.length ∧ 1 ≤ x.2 ∧ x.2 ≤ 3 := by
  rw [mem_chunkAttempts] at h
  obtain ⟨p, r, h⟩ := h
  obtain ⟨j, chunk, hj, _, hmem⟩ := mem_specChunks env net baseURL transferID totalChunks _
    chunks i h
  have hlen : j < chunks.length := (List.getElem?_eq_some_iff.1 hj).1
  rcases hmem with hmem | hmem
  · rcases mem_specAttempts _ _ _ _ _ hmem with ⟨a, ha1, ha3, he, _⟩ | ⟨a, _, he⟩
    · simp only [attemptEffect, Effect.chunkRequest.injEq] at he
      obtain ⟨h1, h2, _, _⟩ := he
      omega
    · cases he
  · cases hmem

theorem specChunks_order (env : Env) (net : Network) (baseURL transferID : GoString)
    (totalChunks : Int) (chunks : List GoString) :
    ∀ i : Nat, (chunkAttempts
      (specChunks env net baseURL transferID totalChunks i chunks)).Pairwise attemptBefore := by
  induction chunks with
  | nil => intro i; simp [specChunks, chunkAttempts]
  | cons c rest ih =>
    intro i
    simp only [specChunks, chunkAttempts_append]
    rw [List.pairwise_append]
    refine ⟨specAttempts_order _ _ _ _, ?_, ?_⟩
    · split_ifs
      · rw [chunkAttempts_append]
        have : chunkAttempts [Effect.sleep (500 * Millisecond)] = [] := rfl
        simpa [this] using ih (i + 1)
      · rw [chunkAttempts_append]
        simpa [chunkAttempts] using ih (i + 1)
      · simp [chunkAttempts]
    · intro x hx y hy
      have hx1 : x.1 = i := by
        rw [mem_chunkAttempts] at hx
        obtain ⟨p, r, hx⟩ := hx
        rcases mem_specAttempts _ _ _ _ _ hx with ⟨a, _, _, he, _⟩ | ⟨a, _, he⟩
        · simp only [attemptEffect, Effect.chunkRequest.injEq] at he
          exact he.1
        · cases he
      have hy1 : i + 1 ≤ y.1 := by
        split_ifs at hy
        · rw [chunkAttempts_append] at hy
          have : chunkAttempts [Effect.sleep (500 * Millisecond)] = [] := rfl
          rw [this, List.nil_append] at hy
          exact (specChunks_attempt_range _ _ _ _ _ _ _ _ hy).1
        · rw [chunkAttempts_append] at hy
          have : chunkAttempts ([] : List Effect) = [] := rfl
          rw [this, List.nil_append] at hy
          exact (specChunks_attempt_range _ _ _ _ _ _ _ _ hy).1
        · simp [chunkAttempts] at hy
      left
      omega

theorem waitsAfterFailures_append (l1 l2 : List Effect)
    (h1 : waitsAfterFailures l1) (h2 : waitsAfterFailures l2) :
    waitsAfterFailures (l1 ++ l2) := by
  intro n i a p e h ha
  by_cases hn : n < l1.length
  · rw [List.getElem?_append_left hn] at h
    have hw := h1 n i a p e h ha
    have hlt : n + 1 < l1.length := (List.getElem?_eq_some_iff.1 hw).1
    rw [List.getElem?_append_left hlt]
    exact hw
  · have hge : l1.length ≤ n := by omega
    rw [List.getElem?_append_right hge] at h
    have hw := h2 (n - l1.length) i a p e h ha
    rw [List.getElem?_append_right (by omega)]
    have e1 : n + 1 - l1.length = n - l1.length + 1 := by omega
    rw [e1]
    exact hw

theorem waitsAfterFailures_specAttempts (net : Network) (baseURL path : GoString) (i : Nat) :
    waitsAfterFailures (specAttempts net baseURL path i) := by
  unfold waitsAfterFailures specAttempts attemptOK attemptEffect
  cases h1 : SendRequest (net.chunk i 1) baseURL path with
  | none =>
    intro n k a p e h ha
    rcases n with _ | n <;> simp at h
  | some e1 =>
    cases h2 : SendRequest (net.chunk i 2) baseURL path with
    | none =>
      intro n k a p e h ha
      rcases n with _ | _ | _ | n <;> simp at h ⊢
      obtain ⟨_, rfl, _, _⟩ := h
      simp
    | some e2 =>
      intro n k a p e h ha
      rcases n with _ | _ | _ | _ | _ | n <;> simp at h ⊢
      · obtain ⟨_, rfl, _, _⟩ := h
        simp
      · obtain ⟨_, rfl, _, _⟩ := h
        simp
      · obtain ⟨_, rfl, _, _⟩ := h
        omega

theorem waitsAfterFailures_no_request (l : List Effect)
    (h : ∀ e ∈ l, ∀ i a p r, e ≠ Effect.chunkRequest i a p r) : waitsAfterFailures l := by
  intro n i a p e hn _
  exact absurd rfl (h _ (List.getElem?_mem hn) i a p (some e))

theorem waitsAfterFailures_specChunks (env : Env) (net : Network)
    (baseURL transferID : GoString) (totalChunks : Int) (chunks : List GoString) :
    ∀ i : Nat,
      waitsAfterFailures (specChunks env net baseURL transferID totalChunks i chunks) := by
  induction chunks with
  | nil =>
    intro i
    exact waitsAfterFailures_no_request _ (by simp [specChunks])
  | cons c rest ih =>
    intro i
    simp only [specChunks]
    apply waitsAfterFailures_append _ _ (waitsAfterFailures_specAttempts _ _ _ _)
    split_ifs
    · exact waitsAfterFailures_append _ _
        (waitsAfterFailures_no_request _ (by simp)) (ih (i + 1))
    · exact waitsAfterFailures_append _ _
        (waitsAfterFailures_no_request _ (by simp)) (ih (i + 1))
    · exact waitsAfterFailures_no_request _ (by simp)

theorem mem_specChunks_request (env : Env) (net : Network) (baseURL transferID : GoString)
    (totalChunks : Int) (chunks : List GoString) (k a : Nat) (p : GoString)
    (r : Option GoString)
    (h : Effect.chunkRequest k a p r ∈
      specChunks env net baseURL transferID totalChunks 0 chunks) :
    ∃ chunk, chunks[k]? = some chunk ∧ p = chunkPath env transferID (k : Int) chunk ∧
      r = SendRequest (net.chunk k a) baseURL p ∧ 1 ≤ a ∧ a ≤ 3 ∧
      (∀ b, 1 ≤ b → b < a → attemptOK net baseURL p k b = false) ∧
      (∀ (j : Nat) (c : GoString), j < k → chunks[j]? = some c →
        chunkOK net baseURL (chunkPath env transferID (j : Int) c) j = true) := by
  obtain ⟨j, chunk, hj, hbefore, hmem⟩ :=
    mem_specChunks env net baseURL transferID totalChunks _ chunks 0 h
  simp only [Nat.zero_add] at hbefore hmem
  rcases hmem with hmem | hmem
  · rcases mem_specAttempts _ _ _ _ _ hmem with ⟨a1, ha1, ha3, he, hfail⟩ | ⟨a1, _, he⟩
    · simp only [attemptEffect, Effect.chunkRequest.injEq] at he
      obtain ⟨rfl, rfl, rfl, rfl⟩ := he
      exact ⟨chunk, hj, rfl, rfl, ha1, ha3, hfail, hbefore⟩
    · cases he
  · cases hmem

theorem completeRequest_not_mem_specChunks (env : Env) (net : Network)
    (baseURL transferID : GoString) (totalChunks : Int) (chunks : List GoString) (i : Nat)
    (p : GoString) (r : Option GoString) :
    Effect.completeRequest p r ∉ specChunks env net baseURL transferID totalChunks i chunks := by
  intro h
  obtain ⟨j, chunk, _, _, hmem⟩ :=
    mem_specChunks env net baseURL transferID totalChunks _ chunks i h
  rcases hmem with hmem | hmem
  · rcases mem_specAttempts _ _ _ _ _ hmem with ⟨a1, _, _, he, _⟩ | ⟨a1, _, he⟩
    · simp [attemptEffect] at he
    · cases he
  · cases hmem

theorem sendAll_eq (env : Env) (net : Network) (baseURL transferID encryptedData : GoString)
    (chunks : List GoString) :
    sendAll env net baseURL transferID encryptedData chunks [] =
      specChunks env net baseURL transferID (chunks.length : Int) 0 chunks ++
        (if allOKFrom env net baseURL transferID 0 chunks = true then
          [Effect.completeRequest (completePath env transferID encryptedData)
            (SendRequest net.complete baseURL (completePath env transferID encryptedData))]
        else []) := by
  simp only [sendAll, chunkLoop_spec, List.nil_append]
  cases allOKFrom env net baseURL transferID 0 chunks <;> simp

/-- C12: with the transport an oracle per attempt, for every chunk sequence the run
of the sender after the init request is the run described by `specChunks`, followed
by the complete request exactly when every chunk succeeded. So: chunk requests go
out in index order, attempts 1 to 3 in order, each chunk request sends the path of
its chunk; nothing is sent for a chunk after a successful attempt; after a failed
attempt 1 or 2 the sender sleeps `attempt` seconds; the complete request is sent
if and only if every chunk succeeded within its 3 attempts; and once a chunk has
failed all 3 attempts no later chunk and no complete request is sent. -/
theorem sendAll_retries (env : Env) (net : Network)
    (baseURL transferID encryptedData : GoString) (chunks : List GoString) :
    ∃ effects, sendAll env net baseURL transferID encryptedData chunks [] = effects ∧
      effects =
        specChunks env net baseURL transferID (chunks.length : Int) 0 chunks ++
          (if allOKFrom env net baseURL transferID 0 chunks = true then
            [Effect.completeRequest (completePath env transferID encryptedData)
              (SendRequest net.complete baseURL (completePath env transferID encryptedData))]
          else []) ∧
      (chunkAttempts effects).Pairwise attemptBefore ∧
      (∀ i a p r, Effect.chunkRequest i a p r ∈ effects →
        1 ≤ a ∧ a ≤ 3 ∧ ∃ chunk, chunks[i]? = some chunk ∧
          p = chunkPath env transferID (i : Int) chunk ∧
          r = SendRequest (net.chunk i a) baseURL p) ∧
      (∀ i a p, Effect.chunkRequest i a p none ∈ effects →
        ∀ b q r, Effect.chunkRequest i b q r ∈ effects → b ≤ a) ∧
      waitsAfterFailures effects ∧
      (completeSent effects ↔
        ∀ (j : Nat) (chunk : GoString), chunks[j]? = some chunk →
          chunkOK net baseURL (chunkPath env transferID (j : Int) chunk) j = true) ∧
      (∀ (j : Nat) (chunk : GoString), chunks[j]? = some chunk →
        chunkOK net baseURL (chunkPath env transferID (j : Int) chunk) j = false →
        (∀ i a p r, Effect.chunkRequest i a p r ∈ effects → i ≤ j) ∧
          ¬ completeSent effects) := by
  refine ⟨_, rfl, sendAll_eq env net baseURL transferID encryptedData chunks, ?_⟩
  rw [sendAll_eq]
  have hall := allOKFrom_iff env net baseURL transferID chunks 0
  simp only [Nat.zero_add] at hall
  -- a chunk request of the run is one of `specChunks`
  have hreq : ∀ i a p r,
      Effect.chunkRequest i a p r ∈
        specChunks env net baseURL transferID (chunks.length : Int) 0 chunks ++
          (if allOKFrom env net baseURL transferID 0 chunks = true then
            [Effect.completeRequest (completePath env transferID encryptedData)
              (SendRequest net.complete baseURL (completePath env transferID encryptedData))]
          else []) →
      Effect.chunkRequest i a p r ∈
        specChunks env net baseURL transferID (chunks.length : Int) 0 chunks := by
    intro i a p r h
    rw [List.mem_append] at h
    rcases h with h | h
    · exact h
    · split_ifs at h <;> simp at h
  have hcomplete : completeSent
      (specChunks env net baseURL transferID (chunks.length : Int) 0 chunks ++
        (if allOKFrom env net baseURL transferID 0 chunks = true then
          [Effect.completeRequest (completePath env transferID encryptedData)
            (SendRequest net.complete baseURL (completePath env transferID encryptedData))]
        else [])) ↔ allOKFrom env net baseURL transferID 0 chunks = true := by
    unfold completeSent
    constructor
    · rintro ⟨p, r, h⟩
      rw [List.mem_append] at h
      rcases h with h | h
      · exact absurd h (completeRequest_not_mem_specChunks _ _ _ _ _ _ _ _ _)
      · split_ifs at h with hok
        · exact hok
        · simp at h
    · intro hok
      refine ⟨completePath env transferID encryptedData,
        SendRequest net.complete baseURL (completePath env transferID encryptedData), ?_⟩
      rw [if_pos hok]
      simp
  refine ⟨?_, ?_, ?_, ?_, ?_, ?_⟩
  · rw [chunkAttempts_append]
    have htail : chunkAttempts
        (if allOKFrom env net baseURL transferID 0 chunks = true then
          [Effect.completeRequest (completePath env transferID encryptedData)
            (SendRequest net.complete baseURL (completePath env transferID encryptedData))]
        else []) = [] := by
      split_ifs <;> rfl
    rw [htail, List.append_nil]
    exact specChunks_order _ _ _ _ _ _ _
  · intro i a p r h
    obtain ⟨chunk, hc, hp, hr, h1, h3, _, _⟩ :=
      mem_specChunks_request _ _ _ _ _ _ _ _ _ _ (hreq i a p r h)
    exact ⟨h1, h3, chunk, hc, hp, hr⟩
  · intro i a p h b q r h2
    obtain ⟨c1, hc1, hp1, hr1, _, _, _, _⟩ :=
      mem_specChunks_request _ _ _ _ _ _ _ _ _ _ (hreq i a p none h)
    obtain ⟨c2, hc2, hp2, _, hb1, _, hfail, _⟩ :=
      mem_specChunks_request _ _ _ _ _ _ _ _ _ _ (hreq i b q r h2)
    rw [hc1] at hc2
    cases hc2
    by_contra hlt
    have hf := hfail a (by
      obtain ⟨_, _, _, _, ha1, _, _, _⟩ :=
        mem_specChunks_request _ _ _ _ _ _ _ _ _ _ (hreq i a p none h)
      exact ha1) (by omega)
    rw [hp2, ← hp1] at hf
    simp only [attemptOK, ← hr1, Option.isNone_none] at hf
    cases hf
  · apply waitsAfterFailures_append _ _ (waitsAfterFailures_specChunks _ _ _ _ _ _ _)
    apply waitsAfterFailures_no_request
    intro e he
    split_ifs at he
    · simp only [List.mem_singleton] at he
      subst he
      intro i a p r hne
      cases hne
    · simp at he
  · rw [hcomplete, hall]
  · intro j chunk hj hfail
    constructor
    · intro i a p r h
      obtain ⟨_, _, _, _, _, _, _, hbefore⟩ :=
        mem_specChunks_request _ _ _ _ _ _ _ _ _ _ (hreq i a p r h)
      by_contra hlt
      have := hbefore j chunk (by omega) hj
      rw [hfail] at this
      cases this
    · rw [hcomplete, hall]
      intro hok
      have := hok j chunk hj
      rw [hfail] at this
      cases this

/-- The run of the sender on three chunks over `demoNet`: chunk 1 needs a second
attempt, after a wait of one second; the complete request closes the run. -/
theorem sendAll_demo :
    sendAll demoEnv demoNet (str "http://h") (str "t") (str "abcdef")
        [str "ab", str "cd", str "ef"] [] =
      [Effect.chunkRequest 0 1 (str "chunk/t/0/00000000000000000000000000000000/ab") none,
       Effect.sleep 500000000,
       Effect.chunkRequest 1 1 (str "chunk/t/1/00000000000000000000000000000000/cd")
         (some (str "timeout")),
       Effect.sleep 1000000000,
       Effect.chunkRequest 1 2 (str "chunk/t/1/00000000000000000000000000000000/cd") none,
       Effect.sleep 500000000,
       Effect.chunkRequest 2 1 (str "chunk/t/2/00000000000000000000000000000000/ef") none,
       Effect.completeRequest (str "complete/t/00000000000000000000000000000000") none] := by
  decide

end Ssrfleak
